import Mathlib

/-!
# check_generated.c : numerical equivalence and differentiation checks

A shallow embedding of `src/test_cases/check_generated.c`.

Conventions of the embedding.

* `FLT` is an arbitrary linearly ordered field `α` (exact arithmetic); the
  theorems that mention a square root are stated over `ℝ` with `Real.sqrt`.
  The libm function `sqrt` is a parameter of every definition that calls it.
* A `FLT *` buffer is a total map `Nat → α` from index to scalar.  A buffer that
  may still hold the `NAN` placeholder is a map into `Option α`, `none` being
  `NAN`; arithmetic on a `NAN` operand yields `NAN`, a comparison with a `NAN`
  operand is false.
* `general_fn` (`void f(FLT *output, const FLT *input)`) is the map from the
  input block to the output vector it writes.
* C `for` loops are `forLoop lo hi body`, a left fold of the body over
  `lo, lo+1, ..., hi-1`.
* The random source and the clock are external: the generator is the stream of
  blocks its successive fill calls write, the clock the stream of its readings;
  the state threaded through the code is how many of each have been consumed.
* `TEST_PRINTF` output is not modelled, except that the number of mismatch
  reports is counted.
* Division is the total division of the field, `x / 0 = 0`, where C yields `NAN`
  (`diff_array` with `len = 0` computes `0 / 0`).  What the theorems say about a zero
  length rests on this convention; the code under study is called with positive lengths.
-/

namespace CheckGenerated

/-! ## Loops and buffers -/

/-- The loop `for (int i = lo; i < hi; i++) s = body i s`. -/
def forLoop {σ : Type} (lo hi : Nat) (body : Nat → σ → σ) (s : σ) : σ :=
  (List.range' lo (hi - lo)).foldl (fun t i => body i t) s

/-- A `FLT *` buffer. -/
abbrev Block (α : Type) := Nat → α

/-- The type `general_fn`: the output vector written for an input block. -/
abbrev general_fn (α : Type) := Block α → Block α

/-- The threshold `1e-5` used by every check. -/
def tol {α : Type} [LinearOrderedField α] : α := 1 / 100000

/-! ## diff_array (lines 86-94) -/

/-- Loop state of `diff_array`: the accumulator `rtn` and the buffer `out`
(`none` when the pointer is null). -/
structure DiffState (α : Type) where
  rtn : α
  out : Option (Block α)

/-- One iteration of the loop of `diff_array` (lines 89-91). -/
def diff_array_step {α : Type} [LinearOrderedField α] (a b : Block α) (i : Nat)
    (s : DiffState α) : DiffState α :=
  { rtn := s.rtn + (a i - b i) * (a i - b i)
    out := s.out.map (fun o => Function.update o i |a i - b i|) }

/-- The loop of `diff_array` (lines 87-92). -/
def diff_array_loop {α : Type} [LinearOrderedField α] (out : Option (Block α))
    (a b : Block α) (len : Nat) : DiffState α :=
  forLoop 0 len (diff_array_step a b) { rtn := 0, out := out }

/-- The value returned by `diff_array(out, a, b, len)`: `sqrt(rtn) / (FLT)len`. -/
def diff_array {α : Type} [LinearOrderedField α] (sqrt : α → α) (out : Option (Block α))
    (a b : Block α) (len : Nat) : α :=
  sqrt (diff_array_loop out a b len).rtn / (len : α)

/-- The buffer `out` after `diff_array(out, a, b, len)`. -/
def diff_array_out {α : Type} [LinearOrderedField α] (out : Option (Block α))
    (a b : Block α) (len : Nat) : Option (Block α) :=
  (diff_array_loop out a b len).out

/-- The function `print_diff_array` (lines 95-100): `diff_array` into a scratch buffer
(`array`, stack memory of unspecified content) that is then printed. -/
def print_diff_array {α : Type} [LinearOrderedField α] (sqrt : α → α) (array : Block α)
    (a b : Block α) (len : Nat) : α :=
  diff_array sqrt (some array) a b len

/-- The root-mean-square elementwise difference in the words of the specification:
the square root of the mean of the squared differences. -/
noncomputable def rms_difference (a b : Block ℝ) (len : Nat) : ℝ :=
  Real.sqrt ((∑ i in Finset.range len, (a i - b i) ^ 2) / (len : ℝ))

/-! ## External functions -/

/-- The functions and constants the file takes from outside: the C library, linmath,
the tracking library and the generated kernels.  `rand k` is the value of the `k`-th
call of `rand()`.  A function that writes through a pointer is the map from the buffer
before the call to the buffer after it. -/
structure Extern (α : Type) where
  sizeofFLT : Nat
  M_PI : α
  RAND_MAX : α
  rand : Nat → α
  quat_of_euler : α → α → α → Fin 4 → α
  copy3d : Block α → Nat → Block α → Block α
  survive_apply_ang_velocity : Block α → Block α → α → Block α → Block α
  gen_imu_rot_f : Block α → α → Block α → Block α

/-- A value together with the number of `rand()` calls made so far. -/
structure Drawn (α : Type) where
  val : α
  rng : Nat

/-- The function `next_rand` (line 47): `rand() / (RAND_MAX / mx) - mx / 2`. -/
def next_rand {α : Type} [LinearOrderedField α] (E : Extern α) (mx : α) (k : Nat) : Drawn α :=
  { val := E.rand k / (E.RAND_MAX / mx) - mx / 2, rng := k + 1 }

/-! ## Input generators (lines 49-62, 282-288, 322-328)

A generator call returns a byte length and stores scalars through its pointer
argument.  The pointer is the index of its target in the caller's buffer (`none` for the
null pointer); the stores are listed in program order as pairs of index and value. -/

/-- What a generator call does: the `size_t` it returns, the stores it makes and the
number of `rand()` calls made so far. -/
structure GenCall (α : Type) where
  length : Nat
  stores : List (Nat × α)
  rng : Nat

/-- Modelled from the spec: `quatfromeuler` of linmath is not part of the source file.
A quaternion is the four-component rotation representation, so `quatfromeuler(q, euler)`
stores the four components of the quaternion of the Euler angles into `q[0..3]`. -/
def quatfromeuler {α : Type} (E : Extern α) (q : Nat) (e0 e1 e2 : α) : List (Nat × α) :=
  [(q, E.quat_of_euler e0 e1 e2 0), (q + 1, E.quat_of_euler e0 e1 e2 1),
   (q + 2, E.quat_of_euler e0 e1 e2 2), (q + 3, E.quat_of_euler e0 e1 e2 3)]

/-- The function `random_quat` (lines 49-56). -/
def random_quat {α : Type} [LinearOrderedField α] (E : Extern α) (rtn : Option Nat)
    (k : Nat) : GenCall α :=
  match rtn with
  | some q =>
    let e0 := next_rand E (2 * E.M_PI) k
    let e1 := next_rand E (2 * E.M_PI) e0.rng
    let e2 := next_rand E (2 * E.M_PI) e1.rng
    { length := E.sizeofFLT * 7, stores := quatfromeuler E q e0.val e1.val e2.val,
      rng := e2.rng }
  | none => { length := E.sizeofFLT * 7, stores := [], rng := k }

/-- Loop state of `random_axis_angle`. -/
structure AxisState (α : Type) where
  stores : List (Nat × α)
  rng : Nat

/-- The function `random_axis_angle` (lines 58-62), `a` being the index of its target. -/
def random_axis_angle {α : Type} [LinearOrderedField α] (E : Extern α) (a : Nat)
    (k : Nat) : AxisState α :=
  forLoop 0 3
    (fun i s =>
      let r := next_rand E (2 * E.M_PI) s.rng
      { stores := s.stores ++ [(a + i, r.val - E.M_PI)], rng := r.rng })
    { stores := [], rng := k }

/-- The function `random_quat_quat` (lines 282-288). -/
def random_quat_quat {α : Type} [LinearOrderedField α] (E : Extern α) (output : Option Nat)
    (k : Nat) : GenCall α :=
  match output with
  | some p =>
    let c1 := random_quat E (some p) k
    let c2 := random_quat E (some (p + 4)) c1.rng
    { length := E.sizeofFLT * 8, stores := c1.stores ++ c2.stores, rng := c2.rng }
  | none => { length := E.sizeofFLT * 8, stores := [], rng := k }

/-- The function `random_quat_vec3` (lines 322-328). -/
def random_quat_vec3 {α : Type} [LinearOrderedField α] (E : Extern α) (output : Option Nat)
    (k : Nat) : GenCall α :=
  match output with
  | some p =>
    let c1 := random_quat E (some p) k
    let c2 := random_axis_angle E (p + 4) c1.rng
    { length := E.sizeofFLT * 7, stores := c1.stores ++ c2.stores, rng := c2.rng }
  | none => { length := E.sizeofFLT * 7, stores := [], rng := k }

/-- The buffer after a list of stores made in program order. -/
def apply_stores {α : Type} (stores : List (Nat × α)) (buf : Block α) : Block α :=
  stores.foldl (fun b p => Function.update b p.1 p.2) buf

/-! ## TEST(Generated, rot_predict_quat) (lines 30-38, 460-486) -/

/-- The function `rot_predict_quat` (lines 30-38) on the data of `f_in` and `f_out`. -/
def rot_predict_quat {α : Type} (E : Extern α) (t : α) (f_in f_out : Block α) : Block α :=
  let rot : Block α := f_in
  let vel : Block α := fun j => f_in (j + 4)
  E.survive_apply_ang_velocity (E.copy3d f_out 4 vel) vel t rot

/-- The accumulated `err` of the test (lines 482-484). -/
def rot_predict_quat_err {α : Type} [LinearOrderedField α] (mo1 mo2 : Block α) : α :=
  forLoop 0 7 (fun i err => err + |(mo1 i - mo2 i) * (mo1 i - mo2 i)|) 0

/-- The status returned by the test (line 485). -/
def rot_predict_quat_status {α : Type} [LinearOrderedField α] (mo1 mo2 : Block α) : Int :=
  if rot_predict_quat_err mo1 mo2 > tol then -1 else 0

/-- The vector `_mo1` of the test after line 473, `k` calls of `rand()` having been made
before the test. -/
def rot_predict_quat_mo1 {α : Type} [LinearOrderedField α] (E : Extern α) (k : Nat) :
    Block α :=
  let t := next_rand E 5 k
  let q := random_quat E (some 0) t.rng
  let v := random_axis_angle E 4 q.rng
  let mi := apply_stores v.stores (apply_stores q.stores (fun _ => 0))
  rot_predict_quat E t.val mi (fun _ => 0)

/-- The vector `_mo2` of the test after line 475. -/
def rot_predict_quat_mo2 {α : Type} [LinearOrderedField α] (E : Extern α) (k : Nat) :
    Block α :=
  let t := next_rand E 5 k
  let q := random_quat E (some 0) t.rng
  let v := random_axis_angle E 4 q.rng
  let mi := apply_stores v.stores (apply_stores q.stores (fun _ => 0))
  E.gen_imu_rot_f (fun _ => 0) t.val mi

/-- The test `TEST(Generated, rot_predict_quat)` (lines 460-486). -/
def test_rot_predict_quat {α : Type} [LinearOrderedField α] (E : Extern α) (k : Nat) : Int :=
  rot_predict_quat_status (rot_predict_quat_mo1 E k) (rot_predict_quat_mo2 E k)

/-! ## Generators and the clock as seen by the checkers -/

/-- A `generate_input` function pointer: `length` is the `size_t` every call returns,
`fill k` the block written by its `k`-th call with a buffer. -/
structure generate_input (α : Type) where
  length : Nat
  fill : Nat → Block α

/-- How much of the external streams has been consumed: the number of blocks drawn
from the generator and the number of readings of `OGGetAbsoluteTime`. -/
structure World where
  draws : Nat
  ticks : Nat

/-- The comparison `x > y` of C where `x` may be `NAN`. -/
def nan_gt {α : Type} [LinearOrderedField α] (x : Option α) (y : α) : Bool :=
  match x with
  | some v => decide (v > y)
  | none => false

/-! ## run_cycles (lines 209-222) -/

/-- Loop state of `run_cycles`. -/
structure CyclesState (α : Type) where
  cycles : Nat
  stop_gen : α
  ticks : Nat
  outputs : Block α

/-- The `do ... while (start_gen + runtime > stop_gen)` loop of `run_cycles`
(lines 215-219); `none` when the fuel runs out before the loop exits. -/
def run_cycles_loop {α : Type} [LinearOrderedField α] (clock : Nat → α)
    (runme : general_fn α) (inputs : Block α) (start_gen runtime : α) :
    Nat → CyclesState α → Option (CyclesState α)
  | 0, _ => none
  | fuel + 1, s =>
    let s1 : CyclesState α :=
      { cycles := s.cycles + 1, stop_gen := clock s.ticks, ticks := s.ticks + 1,
        outputs := runme inputs }
    if start_gen + runtime > s1.stop_gen then
      run_cycles_loop clock runme inputs start_gen runtime fuel s1
    else some s1

/-- What `run_cycles` leaves behind: the returned rate, the number of calls of
`runme`, the output buffer and the number of clock readings made so far. -/
structure CyclesResult (α : Type) where
  hz : α
  cycles : Nat
  outputs : Block α
  ticks : Nat

/-- The function `run_cycles` (lines 209-222). -/
def run_cycles {α : Type} [LinearOrderedField α] (clock : Nat → α) (fuel : Nat)
    (runme : general_fn α) (inputs outputs : Block α) (ticks : Nat) :
    Option (CyclesResult α) :=
  let runtime : α := 1
  let start_gen := clock ticks
  (run_cycles_loop clock runme inputs start_gen runtime fuel
      { cycles := 0, stop_gen := 0, ticks := ticks + 1, outputs := outputs }).map
    (fun s =>
      { hz := (s.cycles : α) / (s.stop_gen - start_gen), cycles := s.cycles,
        outputs := s.outputs, ticks := s.ticks })

/-! ## test_gen_function (lines 224-264) -/

/-- Loop state of the trial loop of `test_gen_function`. -/
structure TrialState (α : Type) where
  draws : Nat
  input : Block α
  output_gen : Block α
  output : Block α
  mismatches : Nat

/-- One trial (lines 234-247). -/
def trial_step {α : Type} [LinearOrderedField α] (sqrt : α → α)
    (input_fn : generate_input α) (nongen generated : general_fn α) (outputs : Nat)
    (_i : Nat) (s : TrialState α) : TrialState α :=
  let input := input_fn.fill s.draws
  let output_gen := generated input
  let output := nongen input
  let err := diff_array sqrt none output output_gen outputs
  { draws := s.draws + 1, input := input, output_gen := output_gen, output := output,
    mismatches := if err > tol then s.mismatches + 1 else s.mismatches }

/-- What `test_gen_function` leaves behind: the returned error, the number of trials it
reported as mismatches, the two rates, the final buffers and the streams consumed. -/
structure ValueResult (α : Type) where
  err : α
  mismatches : Nat
  gen_hz : α
  hz : α
  input : Block α
  output_gen : Block α
  output : Block α
  world : World

/-- The function `test_gen_function` (lines 224-264).  The buffers `output_gen` and
`output` are fresh stack memory, here `out0`. -/
def test_gen_function {α : Type} [LinearOrderedField α] (sqrt : α → α) (clock : Nat → α)
    (fuel : Nat) (input_fn : generate_input α) (nongen generated : general_fn α)
    (outputs : Nat) (out0 : Block α) (w : World) : Option (ValueResult α) :=
  let s0 : TrialState α :=
    { draws := w.draws + 1, input := input_fn.fill w.draws, output_gen := out0,
      output := out0, mismatches := 0 }
  let s := forLoop 0 1000 (trial_step sqrt input_fn nongen generated outputs) s0
  let input := input_fn.fill s.draws
  match run_cycles clock fuel generated input s.output_gen w.ticks with
  | none => none
  | some g =>
    match run_cycles clock fuel nongen input s.output g.ticks with
    | none => none
    | some h =>
      some
        { err := print_diff_array sqrt out0 h.outputs g.outputs outputs,
          mismatches := s.mismatches, gen_hz := g.hz, hz := h.hz, input := input,
          output_gen := g.outputs, output := h.outputs,
          world := { draws := s.draws + 1, ticks := h.ticks } }

/-! ## test_gen_jacobian_function (lines 102-192) -/

/-- The constant `M` (line 124). -/
def M : Nat := 10

/-- The table `D[n][m][d]`; `none` is the `NAN` placeholder. -/
abbrev Table (α : Type) := Nat → Nat → Nat → Option α

/-- The assignment `D[n][m][d] = v`. -/
def Table.set {α : Type} (D : Table α) (n m d : Nat) (v : Option α) : Table α :=
  fun n1 m1 d1 => if n1 = n ∧ m1 = m ∧ d1 = d then v else D n1 m1 d1

/-- State of the loops over the differentiated dimensions: the table, the step `H`
(scoped to one iteration of the loop over `d`, which resets it), the buffers `out` and
`out_pt`, the number of reported mismatches and the stores made to `output`, in
program order. -/
structure JacState (α : Type) where
  D : Table α
  H : α
  out : Block α
  out_pt : Block α
  mismatches : Nat
  output : List (Nat × Option α)

/-- The reset of the table to `NAN` (lines 135-141). -/
def nan_fill {α : Type} (outputs : Nat) (D : Table α) : Table α :=
  forLoop 0 M
    (fun d D1 => forLoop 0 M
      (fun m D2 => forLoop 0 outputs (fun n D3 => D3.set n m d none) D2) D1) D

/-- The buffer `input_copy` after lines 148-151: a copy of the input block with
`s * H` added at index `k`. -/
def perturbed {α : Type} [LinearOrderedField α] (input : Block α) (k : Nat) (s H : α) :
    Block α :=
  Function.update input k (input k + s * H)

/-- One iteration of the loop over `n < 2` (lines 148-158). -/
def probe_step {α : Type} [LinearOrderedField α] (sqrt : α → α)
    (nongen gen : general_fn α) (input : Block α) (outputs k : Nat) (n : Nat)
    (t : JacState α) : JacState α :=
  let s : α := if n = 0 then 1 else -1
  let input_copy := perturbed input k s t.H
  let t1 : JacState α :=
    if n = 0 then { t with out := nongen input_copy }
    else { t with out_pt := nongen input_copy }
  let gen_output := gen input_copy
  let err := diff_array sqrt none gen_output (if n = 0 then t1.out else t1.out_pt) outputs
  if err > tol then { t1 with mismatches := t1.mismatches + 1 } else t1

/-- The right-hand side of line 170 for the two table entries read. -/
def richardson {α : Type} [LinearOrderedField α] (d : Nat) (a b : Option α) : Option α :=
  match a, b with
  | some x, some y => some (((4 : α) ^ d * x - y) / ((4 : α) ^ d - 1))
  | _, _ => none

/-- The body of the loop over `m` (lines 146-172). -/
def table_step {α : Type} [LinearOrderedField α] (sqrt : α → α)
    (nongen gen : general_fn α) (input : Block α) (outputs k : Nat) (d m : Nat)
    (t : JacState α) : JacState α :=
  if d = 0 then
    let t1 := forLoop 0 2 (probe_step sqrt nongen gen input outputs k) t
    let t2 := forLoop 0 outputs
      (fun n u => { u with D := u.D.set n m d (some ((u.out n - u.out_pt n) / 2 / u.H)) }) t1
    { t2 with H := t2.H / 2 }
  else
    forLoop 0 outputs
      (fun n u =>
        { u with D := u.D.set n m d (richardson d (u.D n m (d - 1)) (u.D n (m - 1) (d - 1))) })
      t

/-- The body of the loop over `d` (lines 143-173). -/
def order_step {α : Type} [LinearOrderedField α] (sqrt : α → α)
    (nongen gen : general_fn α) (input : Block α) (outputs k : Nat) (d : Nat)
    (t : JacState α) : JacState α :=
  forLoop d M (table_step sqrt nongen gen input outputs k d) { t with H := 2 }

/-- The table part of one iteration of the loop over `i` (lines 135-174), `k` being
`jac_start_idx + i`. -/
def build_table {α : Type} [LinearOrderedField α] (sqrt : α → α)
    (nongen gen : general_fn α) (input : Block α) (outputs k : Nat)
    (t : JacState α) : JacState α :=
  forLoop 0 M (order_step sqrt nongen gen input outputs k)
    { t with D := nan_fill outputs t.D }

/-- The index `i + n * jac_length` of line 178. -/
def output_index (jac_length i n : Nat) : Nat := i + n * jac_length

/-- The stores to `output` of one iteration of the loop over `i` (lines 176-180). -/
def collect {α : Type} (outputs jac_length i : Nat) (t : JacState α) : JacState α :=
  forLoop 0 outputs
    (fun n u =>
      { u with output := u.output ++ [(output_index jac_length i n, u.D n (M - 1) (M - 1))] })
    t

/-- The body of the loop over `i` (lines 135-180). -/
def dimension_step {α : Type} [LinearOrderedField α] (sqrt : α → α)
    (nongen gen : general_fn α) (input : Block α) (outputs jac_start_idx jac_length : Nat)
    (i : Nat) (t : JacState α) : JacState α :=
  collect outputs jac_length i
    (build_table sqrt nongen gen input outputs (jac_start_idx + i) t)

/-- The state before the loop over `i`: nothing stored to `output`, the other buffers
fresh stack memory (`D` is reset before it is read, `H`, `out` and `out_pt` are
assigned before they are read). -/
def jac_init {α : Type} [LinearOrderedField α] : JacState α :=
  { D := fun _ _ _ => none, H := 0, out := fun _ => 0, out_pt := fun _ => 0,
    mismatches := 0, output := [] }

/-- The state after the first `i` iterations of the loop over the dimensions. -/
def jacobian_loop {α : Type} [LinearOrderedField α] (sqrt : α → α)
    (nongen gen : general_fn α) (input : Block α) (outputs jac_start_idx jac_length : Nat)
    (i : Nat) : JacState α :=
  forLoop 0 i (dimension_step sqrt nongen gen input outputs jac_start_idx jac_length)
    jac_init

/-- The state when iteration `i` of the loop over the dimensions reaches line 176: the
table of dimension `i` is complete, its entries not yet stored to `output`. -/
def dimension_table {α : Type} [LinearOrderedField α] (sqrt : α → α)
    (nongen gen : general_fn α) (input : Block α) (outputs jac_start_idx jac_length : Nat)
    (i : Nat) : JacState α :=
  build_table sqrt nongen gen input outputs (jac_start_idx + i)
    (jacobian_loop sqrt nongen gen input outputs jac_start_idx jac_length i)

/-- The value of `buf[j]` after the given stores: the last store to `j`, `NAN` when the
cell holds `NAN`, and `none` as well when nothing was stored there. -/
def load {α : Type} (stores : List (Nat × Option α)) (j : Nat) : Option α :=
  match stores.reverse.find? (fun p => p.1 = j) with
  | some p => p.2
  | none => none

/-- The first `len` cells of a buffer as scalars, `none` when one of them is `NAN`. -/
def read_all {α : Type} [LinearOrderedField α] (stores : List (Nat × Option α))
    (len : Nat) : Option (Block α) :=
  if (List.range len).all (fun j => (load stores j).isSome) then
    some (fun j => (load stores j).getD 0)
  else none

/-- What `test_gen_jacobian_function` leaves behind: the printed arrays, the number of
reported gen/nongen mismatches, the returned error (`none` when it is `NAN`) and the
number of blocks drawn so far. -/
structure JacResult (α : Type) where
  inputs : Nat
  input : Block α
  output_gen : Block α
  output : List (Nat × Option α)
  mismatches : Nat
  err : Option α
  draws : Nat

/-- The function `test_gen_jacobian_function` (lines 102-192).  The generator fills the
whole block `input` and `generated_jacobian` the whole of `output_gen`, so the `NAN`
pre-fills of lines 109-111 and 114-116 leave no trace. -/
def test_gen_jacobian_function {α : Type} [LinearOrderedField α] (sizeofFLT : Nat)
    (sqrt : α → α) (input_fn : generate_input α)
    (nongen gen generated_jacobian : general_fn α)
    (outputs jac_start_idx jac_length : Nat) (draws : Nat) : JacResult α :=
  let input := input_fn.fill draws
  let output_gen := generated_jacobian input
  let t := jacobian_loop sqrt nongen gen input outputs jac_start_idx jac_length jac_length
  { inputs := input_fn.length / sizeofFLT
    input := input
    output_gen := output_gen
    output := t.output
    mismatches := t.mismatches
    err := (read_all t.output (outputs * jac_length)).map
      (fun est => print_diff_array sqrt (fun _ => 0) est output_gen (outputs * jac_length))
    draws := draws + 1 }

/-! ## test_gen_function_def (lines 194-207, 266-280) -/

/-- The struct `gen_function_jacobian_def`; a null `jacobian` is `none`. -/
structure gen_function_jacobian_def (α : Type) where
  suffix : String
  jacobian : Option (general_fn α)
  jacobian_start_idx : Nat
  jacobian_length : Nat

/-- The struct `gen_function_def`; of `jacobians` only the indices below 16 belong to
the array. -/
structure gen_function_def (α : Type) where
  name : String
  generated : general_fn α
  check : general_fn α
  generate_inputs : generate_input α
  outputs : Nat
  jacobians : Nat → gen_function_jacobian_def α

/-- State of the loop over the Jacobian descriptors: the flag `failed`, the number of
blocks drawn, and the checks run so far in the order they were run, each with the index of
its descriptor and the error it returned. -/
structure DefState (α : Type) where
  failed : Bool
  draws : Nat
  checked : List (Nat × Option α)

/-- The loop of lines 270-278, from index `i` on; `fuel` bounds the iterations. -/
def jacobian_checks {α : Type} [LinearOrderedField α] (sizeofFLT : Nat) (sqrt : α → α)
    (fdef : gen_function_def α) : Nat → Nat → DefState α → DefState α
  | 0, _, s => s
  | fuel + 1, i, s =>
    if i < 16 then
      match (fdef.jacobians i).jacobian with
      | some jac =>
        let r := test_gen_jacobian_function sizeofFLT sqrt fdef.generate_inputs fdef.check
          fdef.generated jac fdef.outputs (fdef.jacobians i).jacobian_start_idx
          (fdef.jacobians i).jacobian_length s.draws
        jacobian_checks sizeofFLT sqrt fdef fuel (i + 1)
          { failed := s.failed || nan_gt r.err tol, draws := r.draws,
            checked := s.checked ++ [(i, r.err)] }
      | none => s
    else s

/-- The error `test_gen_jacobian_function` returns for descriptor `j` when `draws` blocks
have been drawn before the call (`none` also when the descriptor has a null `jacobian`
and there is no call). -/
def jacobian_error {α : Type} [LinearOrderedField α] (sizeofFLT : Nat) (sqrt : α → α)
    (fdef : gen_function_def α) (j draws : Nat) : Option α :=
  match (fdef.jacobians j).jacobian with
  | some jac =>
    (test_gen_jacobian_function sizeofFLT sqrt fdef.generate_inputs fdef.check
      fdef.generated jac fdef.outputs (fdef.jacobians j).jacobian_start_idx
      (fdef.jacobians j).jacobian_length draws).err
  | none => none

/-- What `test_gen_function_def` leaves behind: the returned status, the Jacobian
checks it ran and the streams consumed. -/
structure DefResult (α : Type) where
  status : Int
  value_err : α
  checked : List (Nat × Option α)
  world : World

/-- The function `test_gen_function_def` (lines 266-280). -/
def test_gen_function_def {α : Type} [LinearOrderedField α] (sizeofFLT : Nat)
    (sqrt : α → α) (clock : Nat → α) (fuel : Nat) (out0 : Block α)
    (fdef : gen_function_def α) (w : World) : Option (DefResult α) :=
  match test_gen_function sqrt clock fuel fdef.generate_inputs fdef.check fdef.generated
      fdef.outputs out0 w with
  | none => none
  | some v =>
    let s := jacobian_checks sizeofFLT sqrt fdef 16 0
      { failed := false || decide (v.err > tol), draws := v.world.draws, checked := [] }
    some
      { status := if s.failed then -1 else 0, value_err := v.err, checked := s.checked,
        world := { draws := s.draws, ticks := v.world.ticks } }

/-- The number of Jacobian descriptors a descriptor owns, in the words of the
specification: the entries of `jacobians` before the first one with a null `jacobian`. -/
def owned_count {α : Type} (fdef : gen_function_def α) : Nat :=
  ((List.range 16).takeWhile (fun i => ((fdef.jacobians i).jacobian).isSome)).length

/-! ## Richardson extrapolation, as mathematics -/

/-- The central difference `(g(H) - g(-H)) / (2 H)` of a function of the perturbation. -/
def central_difference {α : Type} [LinearOrderedField α] (g : α → α) (H : α) : α :=
  (g H - g (-H)) / (2 * H)

/-- The step size of row `m`: start 2, halved `m` times. -/
def step_size {α : Type} [LinearOrderedField α] (m : Nat) : α := 2 / 2 ^ m

/-- The Richardson table of a function `g` of the perturbation: order 0 holds the central
differences at the halved steps, order `d + 1` combines two entries of order `d`. -/
def richardson_table {α : Type} [LinearOrderedField α] (g : α → α) : Nat → Nat → α
  | m, 0 => central_difference g (step_size m)
  | m, d + 1 =>
    ((4 : α) ^ (d + 1) * richardson_table g m d - richardson_table g (m - 1) d)
      / ((4 : α) ^ (d + 1) - 1)

/-- The factor by which `d` extrapolation orders scale the error term `H ^ (2 k)`. -/
def cancel_factor {α : Type} [LinearOrderedField α] (k : Nat) : Nat → α
  | 0 => 1
  | d + 1 => cancel_factor k d * (((4 : α) ^ (d + 1) - (4 : α) ^ k) / ((4 : α) ^ (d + 1) - 1))

/-- Output `n` of the function `f` as a function of the amount added to coordinate `k`
of the block `x`. -/
def probe_fn {α : Type} [LinearOrderedField α] (f : general_fn α) (x : Block α)
    (k n : Nat) : α → α :=
  fun h => f (Function.update x k (x k + h)) n

/-! ## The registered quaternion cases (lines 290-342) -/

/-- The quaternion kernels of linmath and their generated counterparts, taken from
outside: each is the map from its two pointer arguments to the output it writes. -/
structure Kernels (α : Type) where
  quatrotateabout : Block α → Block α → Block α
  gen_quatrotateabout : Block α → Block α → Block α
  gen_quatrotateabout_jac_q1 : Block α → Block α → Block α
  gen_quatrotateabout_jac_q2 : Block α → Block α → Block α
  quatrotatevector : Block α → Block α → Block α
  gen_quatrotatevector : Block α → Block α → Block α
  gen_quatrotatevector_jac_q : Block α → Block α → Block α
  gen_quatrotatevector_jac_pt : Block α → Block α → Block α

/-- The pointer `input + off`. -/
def offset {α : Type} (input : Block α) (off : Nat) : Block α := fun j => input (j + off)

/-- The number of `rand()` calls made when `n` fill calls of the generator `g` have
returned, `k0` calls having been made before the first. -/
def rng_after {α : Type} (g : Option Nat → Nat → GenCall α) (k0 : Nat) : Nat → Nat
  | 0 => k0
  | n + 1 => (g (some 0) (rng_after g k0 n)).rng

/-- A generator of the file as the checkers see it through a `generate_input` pointer: the
length is what the measure call returns, the block of the `n`-th fill call is the buffer
(holding `buf0` before the call) after the stores of that call. -/
def as_generate_input {α : Type} (g : Option Nat → Nat → GenCall α) (k0 : Nat)
    (buf0 : Block α) : generate_input α :=
  { length := (g none k0).length
    fill := fun n => apply_stores (g (some 0) (rng_after g k0 n)).stores buf0 }

/-- An entry of `jacobians` without initializer: all members zero. -/
def null_jacobian_def {α : Type} : gen_function_jacobian_def α :=
  { suffix := "", jacobian := none, jacobian_start_idx := 0, jacobian_length := 0 }

/-- The functions `general_gen_quatrotateabout`, `general_quatrotateabout`,
`general_gen_quatrotateabout_jac_q1` and `general_gen_quatrotateabout_jac_q2`
(lines 290-297): the kernel applied to `input` and `input + 4`. -/
def general_two_pointers {α : Type} (kernel : Block α → Block α → Block α) : general_fn α :=
  fun input => kernel input (offset input 4)

/-- The descriptor `quatrotateabout_def` (lines 299-309). -/
def quatrotateabout_def {α : Type} [LinearOrderedField α] (E : Extern α) (K : Kernels α)
    (k0 : Nat) (buf0 : Block α) : gen_function_def α :=
  { name := "quatrotateabout"
    generated := general_two_pointers K.gen_quatrotateabout
    check := general_two_pointers K.quatrotateabout
    generate_inputs := as_generate_input (random_quat_quat E) k0 buf0
    outputs := 4
    jacobians := fun j =>
      if j = 0 then
        { suffix := "q1", jacobian := some (general_two_pointers K.gen_quatrotateabout_jac_q1),
          jacobian_start_idx := 0, jacobian_length := 4 }
      else if j = 1 then
        { suffix := "q2", jacobian := some (general_two_pointers K.gen_quatrotateabout_jac_q2),
          jacobian_start_idx := 4, jacobian_length := 4 }
      else null_jacobian_def }

/-- The descriptor `quatrotatevector_def` (lines 330-340). -/
def quatrotatevector_def {α : Type} [LinearOrderedField α] (E : Extern α) (K : Kernels α)
    (k0 : Nat) (buf0 : Block α) : gen_function_def α :=
  { name := "quatrotatevector"
    generated := general_two_pointers K.gen_quatrotatevector
    check := general_two_pointers K.quatrotatevector
    generate_inputs := as_generate_input (random_quat_vec3 E) k0 buf0
    outputs := 3
    jacobians := fun j =>
      if j = 0 then
        { suffix := "q", jacobian := some (general_two_pointers K.gen_quatrotatevector_jac_q),
          jacobian_start_idx := 0, jacobian_length := 4 }
      else if j = 1 then
        { suffix := "pt", jacobian := some (general_two_pointers K.gen_quatrotatevector_jac_pt),
          jacobian_start_idx := 4, jacobian_length := 3 }
      else null_jacobian_def }

/-- The number of scalars of the input block of a descriptor, as
`test_gen_jacobian_function` computes it (line 105): `input_fn(0) / sizeof(FLT)`. -/
def input_scalars {α : Type} (sizeofFLT : Nat) (fdef : gen_function_def α) : Nat :=
  fdef.generate_inputs.length / sizeofFLT

/-! ## Loop rules -/

theorem forLoop_self {σ : Type} (lo : Nat) (body : Nat → σ → σ) (s : σ) :
    forLoop lo lo body s = s := by
  simp [forLoop]

theorem forLoop_succ {σ : Type} (lo hi : Nat) (h : lo ≤ hi) (body : Nat → σ → σ) (s : σ) :
    forLoop lo (hi + 1) body s = body hi (forLoop lo hi body s) := by
  unfold forLoop
  have e : hi + 1 - lo = (hi - lo) + 1 := by omega
  rw [e, List.range'_concat, List.foldl_append]
  simp only [List.foldl_cons, List.foldl_nil, one_mul]
  congr 1
  omega

theorem forLoop_empty {σ : Type} (lo hi : Nat) (h : hi ≤ lo) (body : Nat → σ → σ) (s : σ) :
    forLoop lo hi body s = s := by
  unfold forLoop
  have e : hi - lo = 0 := by omega
  simp [e]

/-- Invariant rule for `forLoop`. -/
theorem forLoop_inv {σ : Type} (P : Nat → σ → Prop) (lo hi : Nat) (hle : lo ≤ hi)
    (body : Nat → σ → σ) (s : σ) (h0 : P lo s)
    (hstep : ∀ i t, lo ≤ i → i < hi → P i t → P (i + 1) (body i t)) :
    P hi (forLoop lo hi body s) := by
  induction hi, hle using Nat.le_induction with
  | base => simpa [forLoop_self] using h0
  | succ n hn ih =>
    rw [forLoop_succ lo n hn]
    exact hstep n _ hn (Nat.lt_succ_self n)
      (ih (fun i t h1 h2 hp => hstep i t h1 (Nat.lt_succ_of_lt h2) hp))

/-! ## diff_array : facts -/

theorem diff_array_loop_rtn {α : Type} [LinearOrderedField α] (out : Option (Block α))
    (a b : Block α) (len : Nat) :
    (diff_array_loop out a b len).rtn = ∑ i in Finset.range len, (a i - b i) ^ 2 := by
  unfold diff_array_loop
  refine forLoop_inv (fun j (t : DiffState α) => t.rtn = ∑ i in Finset.range j, (a i - b i) ^ 2) 0 len
    (Nat.zero_le _) _ _ (by simp) ?_
  intro i t _ _ ht
  simp only [diff_array_step, Finset.sum_range_succ, ht]
  ring

theorem diff_array_loop_out_none {α : Type} [LinearOrderedField α]
    (a b : Block α) (len : Nat) :
    (diff_array_loop none a b len).out = none := by
  unfold diff_array_loop
  refine forLoop_inv (fun _ (t : DiffState α) => t.out = none) 0 len (Nat.zero_le _) _ _ rfl ?_
  intro i t _ _ ht
  simp [diff_array_step, ht]

theorem diff_array_loop_out_some {α : Type} [LinearOrderedField α] (o : Block α)
    (a b : Block α) (len : Nat) :
    (diff_array_loop (some o) a b len).out
      = some (fun i => if i < len then |a i - b i| else o i) := by
  unfold diff_array_loop
  refine forLoop_inv
    (fun j (t : DiffState α) => t.out = some (fun i => if i < j then |a i - b i| else o i)) 0 len
    (Nat.zero_le _) _ _ (by simp) ?_
  intro i t _ _ ht
  simp only [diff_array_step, ht, Option.map_some', Option.some.injEq]
  funext k
  by_cases hk : k = i
  · subst hk; simp
  · rw [Function.update_noteq hk]
    have : (k < i + 1) ↔ (k < i) := by omega
    simp [this]

theorem diff_array_out_irrelevant {α : Type} [LinearOrderedField α] (sqrt : α → α)
    (out : Option (Block α)) (a b : Block α) (len : Nat) :
    diff_array sqrt out a b len = diff_array sqrt none a b len := by
  simp only [diff_array, diff_array_loop_rtn]

/-- C1 (counterexample): for four unit differences `diff_array` returns `1/2`, whereas the
root-mean-square difference is `1`. -/
theorem diff_array_is_not_rms :
    diff_array Real.sqrt none (fun _ => (1 : ℝ)) (fun _ => 0) 4 = 1 / 2
      ∧ rms_difference (fun _ => (1 : ℝ)) (fun _ => 0) 4 = 1
      ∧ diff_array Real.sqrt none (fun _ => (1 : ℝ)) (fun _ => 0) 4
          ≠ rms_difference (fun _ => (1 : ℝ)) (fun _ => 0) 4 := by
  have h4 : Real.sqrt 4 = 2 := by
    rw [show (4 : ℝ) = 2 ^ 2 by norm_num]
    exact Real.sqrt_sq (by norm_num)
  have e1 : diff_array Real.sqrt none (fun _ => (1 : ℝ)) (fun _ => 0) 4 = 1 / 2 := by
    simp only [diff_array, diff_array_loop_rtn]
    norm_num [Finset.sum_range_succ, h4]
  have e2 : rms_difference (fun _ => (1 : ℝ)) (fun _ => 0) 4 = 1 := by
    simp only [rms_difference]
    norm_num [Finset.sum_range_succ]
  refine ⟨e1, e2, ?_⟩
  rw [e1, e2]
  norm_num

/-- C1 (amended): for `len >= 1`, `diff_array(out, a, b, len)` returns the square root of
the sum of the squared differences divided by `len` (the Euclidean norm of the difference
over `len`), and a non-null `out` holds `|a[i] - b[i]|` at every `i < len` afterwards and
is unchanged elsewhere; a null `out` stays null. -/
theorem diff_array_value (out : Option (Block ℝ)) (a b : Block ℝ) (len : Nat)
    (_hlen : 1 ≤ len) :
    diff_array Real.sqrt out a b len
        = Real.sqrt (∑ i in Finset.range len, (a i - b i) ^ 2) / (len : ℝ)
      ∧ diff_array_out none a b len = none
      ∧ ∀ o : Block ℝ, ∃ o1 : Block ℝ, diff_array_out (some o) a b len = some o1
          ∧ (∀ i, i < len → o1 i = |a i - b i|) ∧ (∀ i, len ≤ i → o1 i = o i) := by
  refine ⟨by simp only [diff_array, diff_array_loop_rtn], ?_, ?_⟩
  · exact diff_array_loop_out_none a b len
  · intro o
    refine ⟨_, diff_array_loop_out_some o a b len, ?_, ?_⟩
    · intro i hi; simp [hi]
    · intro i hi; simp [Nat.not_lt.mpr hi]

/-- The value of `diff_array` for two unit differences. -/
theorem diff_array_value_witness :
    (1 ≤ 2) ∧
    (diff_array Real.sqrt none (fun _ => (1 : ℝ)) (fun _ => 0) 2
        = Real.sqrt (∑ i in Finset.range 2, ((fun _ => (1 : ℝ)) i - (fun _ => (0 : ℝ)) i) ^ 2)
            / ((2 : Nat) : ℝ)) :=
  ⟨by decide, (diff_array_value none (fun _ => (1 : ℝ)) (fun _ => 0) 2 (by decide)).1⟩

/-! ## TEST(Generated, rot_predict_quat) : facts -/

theorem rot_predict_quat_err_eq {α : Type} [LinearOrderedField α] (mo1 mo2 : Block α) :
    rot_predict_quat_err mo1 mo2 = ∑ i in Finset.range 7, (mo1 i - mo2 i) ^ 2 := by
  unfold rot_predict_quat_err
  refine forLoop_inv (fun j (e : α) => e = ∑ i in Finset.range j, (mo1 i - mo2 i) ^ 2) 0 7
    (by decide) _ _ (by simp) ?_
  intro i t _ _ ht
  simp only [Finset.sum_range_succ, ht, abs_mul_self]
  ring

/-- C4 (counterexample): for outputs that differ by `0.001` in one element the test
returns 0, although their root-mean-square difference over the 7 elements exceeds
`1e-5`. -/
theorem rot_predict_quat_status_is_not_rms :
    rot_predict_quat_status (fun i => if i = 0 then (1 / 1000 : ℝ) else 0) (fun _ => 0) = 0
      ∧ ¬ (rms_difference (fun i => if i = 0 then (1 / 1000 : ℝ) else 0) (fun _ => 0) 7
            ≤ (1 / 100000 : ℝ)) := by
  constructor
  · simp only [rot_predict_quat_status, rot_predict_quat_err_eq, tol]
    norm_num [Finset.sum_range_succ]
  · simp only [rms_difference, not_le]
    rw [Real.lt_sqrt (by norm_num)]
    norm_num [Finset.sum_range_succ]

/-- C4 (amended): the test returns 0 exactly when the sum over the 7 elements of the
squared differences of `mo1` and `mo2` is at most `1e-5`, and returns -1 otherwise; this
is the status of the test for the vectors its two integrators produce. -/
theorem rot_predict_quat_status_iff {α : Type} [LinearOrderedField α] (mo1 mo2 : Block α)
    (E : Extern α) (k : Nat) :
    (rot_predict_quat_status mo1 mo2 = 0
        ↔ ∑ i in Finset.range 7, (mo1 i - mo2 i) ^ 2 ≤ (1 / 100000 : α))
      ∧ (rot_predict_quat_status mo1 mo2 = -1
        ↔ ¬ (∑ i in Finset.range 7, (mo1 i - mo2 i) ^ 2 ≤ (1 / 100000 : α)))
      ∧ test_rot_predict_quat E k
        = rot_predict_quat_status (rot_predict_quat_mo1 E k) (rot_predict_quat_mo2 E k) := by
  refine ⟨?_, ?_, rfl⟩
  · simp only [rot_predict_quat_status, rot_predict_quat_err_eq, tol]
    split_ifs with h
    · exact ⟨fun h0 => absurd h0 (by decide), fun h1 => absurd h (not_lt.mpr h1)⟩
    · exact ⟨fun _ => not_lt.mp h, fun _ => rfl⟩
  · simp only [rot_predict_quat_status, rot_predict_quat_err_eq, tol]
    split_ifs with h
    · exact ⟨fun _ => not_le.mpr h, fun _ => rfl⟩
    · exact ⟨fun h0 => absurd h0 (by decide), fun h1 => absurd (not_lt.mp h) h1⟩

/-! ## Input generators : facts -/

theorem random_axis_angle_indices {α : Type} [LinearOrderedField α] (E : Extern α)
    (a k : Nat) :
    (random_axis_angle E a k).stores.map Prod.fst = [a, a + 1, a + 2] := by
  simp [random_axis_angle, forLoop, List.range', next_rand]

/-- Measure and fill of `random_quat_quat` and `random_quat_vec3`: a measure call stores
nothing and returns the length of a fill call; a fill call stores to the indices
`0 .. length / sizeof(FLT) - 1` of its buffer, once each, and to no other. -/
theorem composite_generators_fill_length {α : Type} [LinearOrderedField α] (E : Extern α)
    (k : Nat) (hsz : 0 < E.sizeofFLT) :
    (random_quat_quat E none k).stores = []
      ∧ (random_quat_quat E none k).length = (random_quat_quat E (some 0) k).length
      ∧ (random_quat_quat E (some 0) k).stores.map Prod.fst
          = List.range ((random_quat_quat E (some 0) k).length / E.sizeofFLT)
      ∧ (random_quat_vec3 E none k).stores = []
      ∧ (random_quat_vec3 E none k).length = (random_quat_vec3 E (some 0) k).length
      ∧ (random_quat_vec3 E (some 0) k).stores.map Prod.fst
          = List.range ((random_quat_vec3 E (some 0) k).length / E.sizeofFLT) := by
  have h8 : E.sizeofFLT * 8 / E.sizeofFLT = 8 := Nat.mul_div_cancel_left 8 hsz
  have h7 : E.sizeofFLT * 7 / E.sizeofFLT = 7 := Nat.mul_div_cancel_left 7 hsz
  refine ⟨rfl, rfl, ?_, rfl, rfl, ?_⟩
  · simp only [random_quat_quat, random_quat, quatfromeuler, h8]
    simp [List.range, List.range.loop]
  · simp only [random_quat_vec3, List.map_append, random_axis_angle_indices, h7]
    simp [random_quat, quatfromeuler, List.range, List.range.loop]

/-- C8 (the code at the failing input): a fill call of `random_quat` returns the length of
seven scalars, as the measure call does, but stores to the four indices 0, 1, 2, 3 only:
the indices 4, 5, 6 of the declared block are not written. -/
theorem random_quat_fill_short {α : Type} [LinearOrderedField α] (E : Extern α) (k : Nat) :
    (random_quat E none k).stores = []
      ∧ (random_quat E none k).length = E.sizeofFLT * 7
      ∧ (random_quat E (some 0) k).length = E.sizeofFLT * 7
      ∧ (random_quat E (some 0) k).stores.map Prod.fst = [0, 1, 2, 3]
      ∧ (random_quat E (some 0) k).stores.map Prod.fst
          ≠ List.range 7 := by
  refine ⟨rfl, rfl, rfl, ?_, ?_⟩
  · simp [random_quat, quatfromeuler]
  · simp [random_quat, quatfromeuler, List.range, List.range.loop]

/-! ## run_cycles : facts -/

theorem run_cycles_loop_exit {α : Type} [LinearOrderedField α] (clock : Nat → α)
    (runme : general_fn α) (inputs : Block α) (start_gen runtime : α) (r : Nat) :
    ∀ (fuel : Nat) (s : CyclesState α), r + 1 ≤ fuel →
      (∀ j, j < r → start_gen + runtime > clock (s.ticks + j)) →
      ¬ (start_gen + runtime > clock (s.ticks + r)) →
      run_cycles_loop clock runme inputs start_gen runtime fuel s
        = some { cycles := s.cycles + r + 1, stop_gen := clock (s.ticks + r),
                 ticks := s.ticks + r + 1, outputs := runme inputs } := by
  induction r with
  | zero =>
    intro fuel s hf _ hexit
    obtain ⟨f, rfl⟩ : ∃ f, fuel = f + 1 := ⟨fuel - 1, by omega⟩
    simp only [run_cycles_loop]
    rw [if_neg (by simpa using hexit)]
    simp
  | succ r ih =>
    intro fuel s hf hbefore hexit
    obtain ⟨f, rfl⟩ : ∃ f, fuel = f + 1 := ⟨fuel - 1, by omega⟩
    simp only [run_cycles_loop]
    rw [if_pos (by simpa using hbefore 0 (Nat.succ_pos r))]
    rw [ih f _ (by omega)]
    · simp only [Option.some.injEq, CyclesState.mk.injEq]
      refine ⟨by omega, ?_, by omega, trivial⟩
      congr 1; omega
    · intro j hj
      have := hbefore (j + 1) (by omega)
      simpa [Nat.add_assoc, Nat.add_comm 1 j] using this
    · have e : s.ticks + 1 + r = s.ticks + (r + 1) := by omega
      simpa [e] using hexit

theorem run_cycles_exit {α : Type} [LinearOrderedField α] (clock : Nat → α) (fuel : Nat)
    (runme : general_fn α) (inputs outputs : Block α) (ticks k : Nat)
    (hk : 1 ≤ k) (hfuel : k ≤ fuel)
    (hreach : clock ticks + 1 ≤ clock (ticks + k))
    (hfirst : ∀ j, 1 ≤ j → j < k → clock (ticks + j) < clock ticks + 1) :
    run_cycles clock fuel runme inputs outputs ticks
      = some { hz := (k : α) / (clock (ticks + k) - clock ticks), cycles := k,
               outputs := runme inputs, ticks := ticks + k + 1 } := by
  obtain ⟨r, rfl⟩ : ∃ r, k = r + 1 := ⟨k - 1, by omega⟩
  unfold run_cycles
  simp only
  rw [run_cycles_loop_exit clock runme inputs (clock ticks) 1 r fuel _ hfuel]
  · simp only [Option.map_some', Option.some.injEq, CyclesResult.mk.injEq]
    refine ⟨?_, by omega, trivial, by omega⟩
    have e : ticks + 1 + r = ticks + (r + 1) := by omega
    simp [e]
  · intro j hj
    have := hfirst (j + 1) (by omega) (by omega)
    have e : ticks + 1 + j = ticks + (j + 1) := by omega
    simpa [e] using this
  · have e : ticks + 1 + r = ticks + (r + 1) := by omega
    simpa [e] using hreach

/-- C9: when `t_k >= t_start + 1` and `k >= 1` is the first such index of the clock
readings after `t_start`, `run_cycles` (given fuel for `k` iterations) returns after
exactly `k` calls of the function with the rate `k / (t_k - t_start)`, which is positive and
at most `k`. -/
theorem run_cycles_rate {α : Type} [LinearOrderedField α] (clock : Nat → α) (fuel : Nat)
    (runme : general_fn α) (inputs outputs : Block α) (ticks k : Nat)
    (hk : 1 ≤ k) (hfuel : k ≤ fuel)
    (hreach : clock ticks + 1 ≤ clock (ticks + k))
    (hfirst : ∀ j, 1 ≤ j → j < k → clock (ticks + j) < clock ticks + 1) :
    ∃ r : CyclesResult α, run_cycles clock fuel runme inputs outputs ticks = some r
      ∧ r.cycles = k
      ∧ r.hz = (k : α) / (clock (ticks + k) - clock ticks)
      ∧ 0 < r.hz ∧ r.hz ≤ (k : α) := by
  refine ⟨_, run_cycles_exit clock fuel runme inputs outputs ticks k hk hfuel hreach hfirst,
    rfl, rfl, ?_, ?_⟩
  · have hd : (0 : α) < clock (ticks + k) - clock ticks := by linarith
    have hkpos : (0 : α) < (k : α) := by exact_mod_cast hk
    exact div_pos hkpos hd
  · have hd : (1 : α) ≤ clock (ticks + k) - clock ticks := by linarith
    have hkpos : (0 : α) ≤ (k : α) := by exact_mod_cast Nat.zero_le k
    exact div_le_self hkpos hd

/-- A clock that advances by half a unit per reading ends the loop after two calls. -/
theorem run_cycles_rate_witness :
    ∃ r : CyclesResult ℚ,
      run_cycles (fun n => (n : ℚ) / 2) 5 (fun x => x) (fun _ => 0) (fun _ => 0) 0 = some r
      ∧ r.cycles = 2
      ∧ r.hz = ((2 : Nat) : ℚ) / ((fun n : Nat => (n : ℚ) / 2) (0 + 2) - (fun n : Nat => (n : ℚ) / 2) 0)
      ∧ 0 < r.hz ∧ r.hz ≤ ((2 : Nat) : ℚ) :=
  run_cycles_rate (fun n => (n : ℚ) / 2) 5 (fun x => x) (fun _ => 0) (fun _ => 0) 0 2
    (by decide) (by decide) (by norm_num)
    (by
      intro j h1 h2
      have hj : j = 1 := by omega
      subst hj
      norm_num)

theorem run_cycles_terminates {α : Type} [LinearOrderedField α] (clock : Nat → α)
    (hclock : ∀ s, ∃ k, clock s + 1 ≤ clock (s + k))
    (runme : general_fn α) (inputs outputs : Block α) (ticks : Nat) :
    ∃ (N : Nat) (r : CyclesResult α), r.outputs = runme inputs
      ∧ ∀ fuel, N ≤ fuel → run_cycles clock fuel runme inputs outputs ticks = some r := by
  classical
  have hex := hclock ticks
  have hk0 : 1 ≤ Nat.find hex := by
    rcases Nat.eq_zero_or_pos (Nat.find hex) with h0 | hpos
    · have h := Nat.find_spec hex
      rw [h0] at h
      simp only [Nat.add_zero] at h
      linarith
    · exact hpos
  refine ⟨Nat.find hex, _, ?_, fun fuel hf =>
    run_cycles_exit clock fuel runme inputs outputs ticks (Nat.find hex) hk0 hf
      (Nat.find_spec hex) ?_⟩
  · rfl
  · intro j _ hj
    exact not_le.mp (Nat.find_min hex hj)

/-! ## test_gen_function : facts -/

theorem trial_loop_draws {α : Type} [LinearOrderedField α] (sqrt : α → α)
    (input_fn : generate_input α) (nongen generated : general_fn α) (outputs : Nat)
    (s0 : TrialState α) (n : Nat) :
    (forLoop 0 n (trial_step sqrt input_fn nongen generated outputs) s0).draws
      = s0.draws + n := by
  refine forLoop_inv (fun j (t : TrialState α) => t.draws = s0.draws + j) 0 n
    (Nat.zero_le _) _ _ rfl ?_
  intro i t _ _ ht
  simp only [trial_step, ht]
  omega

theorem test_gen_function_returns {α : Type} [LinearOrderedField α] (sqrt : α → α)
    (clock : Nat → α) (input_fn : generate_input α) (nongen generated : general_fn α)
    (outputs : Nat) (out0 : Block α) (w : World)
    (hclock : ∀ s, ∃ k, clock s + 1 ≤ clock (s + k)) :
    ∃ (N : Nat) (v : ValueResult α),
      v.err = diff_array sqrt none (nongen (input_fn.fill (w.draws + 1001)))
          (generated (input_fn.fill (w.draws + 1001))) outputs
      ∧ v.input = input_fn.fill (w.draws + 1001)
      ∧ v.world.draws = w.draws + 1002
      ∧ ∀ fuel, N ≤ fuel →
          test_gen_function sqrt clock fuel input_fn nongen generated outputs out0 w
            = some v := by
  have hd := trial_loop_draws sqrt input_fn nongen generated outputs
    { draws := w.draws + 1, input := input_fn.fill w.draws, output_gen := out0,
      output := out0, mismatches := 0 } 1000
  simp only at hd
  generalize hS : forLoop 0 1000 (trial_step sqrt input_fn nongen generated outputs)
      { draws := w.draws + 1, input := input_fn.fill w.draws, output_gen := out0,
        output := out0, mismatches := 0 } = S at hd
  obtain ⟨N1, g, hg, hN1⟩ := run_cycles_terminates clock hclock generated
    (input_fn.fill (w.draws + 1001)) S.output_gen w.ticks
  obtain ⟨N2, h, hh, hN2⟩ := run_cycles_terminates clock hclock nongen
    (input_fn.fill (w.draws + 1001)) S.output g.ticks
  refine ⟨max N1 N2,
    { err := print_diff_array sqrt out0 h.outputs g.outputs outputs,
      mismatches := S.mismatches, gen_hz := g.hz, hz := h.hz,
      input := input_fn.fill (w.draws + 1001), output_gen := g.outputs,
      output := h.outputs, world := { draws := w.draws + 1001 + 1, ticks := h.ticks } },
    ?_, rfl, rfl, fun fuel hf => ?_⟩
  · simp only [print_diff_array, hh, hg]
    exact diff_array_out_irrelevant sqrt _ _ _ _
  · unfold test_gen_function
    simp only [hS, hd, show w.draws + 1 + 1000 = w.draws + 1001 by omega]
    rw [hN1 fuel (le_trans (le_max_left _ _) hf)]
    simp only
    rw [hN2 fuel (le_trans (le_max_right _ _) hf)]

/-- C3: when the clock keeps advancing, `test_gen_function` (given enough fuel for its two
timing loops) returns, and the value it returns is `diff_array` of `nongen(x)` and
`generated(x)` over the output vector, where `x` is the block the generator writes at its
call after the 1000 trials (the call number 1001 after the one made before the loop): the
value mentions no block drawn earlier and not the number of trials reported as
mismatches. -/
theorem test_gen_function_final_sample {α : Type} [LinearOrderedField α] (sqrt : α → α)
    (clock : Nat → α) (input_fn : generate_input α) (nongen generated : general_fn α)
    (outputs : Nat) (out0 : Block α) (w : World)
    (hclock : ∀ s, ∃ k, clock s + 1 ≤ clock (s + k)) :
    ∃ N : Nat, ∀ fuel, N ≤ fuel → ∃ v : ValueResult α,
      test_gen_function sqrt clock fuel input_fn nongen generated outputs out0 w = some v
      ∧ v.err = diff_array sqrt none (nongen (input_fn.fill (w.draws + 1001)))
          (generated (input_fn.fill (w.draws + 1001))) outputs
      ∧ v.input = input_fn.fill (w.draws + 1001) := by
  obtain ⟨N, v, hv, hi, _, hN⟩ :=
    test_gen_function_returns sqrt clock input_fn nongen generated outputs out0 w hclock
  exact ⟨N, fun fuel hf => ⟨v, hN fuel hf, hv, hi⟩⟩

/-! ## Richardson extrapolation : facts -/

theorem four_pow_sub_one_ne_zero {α : Type} [LinearOrderedField α] (d : Nat) :
    ((4 : α) ^ (d + 1) - 1) ≠ 0 := by
  have h : (1 : α) < (4 : α) ^ (d + 1) := one_lt_pow₀ (by norm_num) (Nat.succ_ne_zero d)
  linarith

theorem step_size_ne_zero {α : Type} [LinearOrderedField α] (m : Nat) :
    (step_size m : α) ≠ 0 := by
  unfold step_size
  positivity

theorem step_size_pred_sq {α : Type} [LinearOrderedField α] (m : Nat) (hm : 1 ≤ m) :
    (step_size (m - 1) : α) ^ 2 = 4 * (step_size m : α) ^ 2 := by
  obtain ⟨r, rfl⟩ : ∃ r, m = r + 1 := ⟨m - 1, by omega⟩
  simp only [step_size, Nat.add_sub_cancel, pow_succ]
  field_simp
  ring

theorem cancel_factor_zero {α : Type} [LinearOrderedField α] (d : Nat) :
    (cancel_factor 0 d : α) = 1 := by
  induction d with
  | zero => rfl
  | succ d ih =>
    simp only [cancel_factor, ih, pow_zero, one_mul]
    exact div_self (four_pow_sub_one_ne_zero d)

theorem cancel_factor_vanish {α : Type} [LinearOrderedField α] (k d : Nat) (hk : 1 ≤ k)
    (hkd : k ≤ d) : (cancel_factor k d : α) = 0 := by
  induction d with
  | zero => omega
  | succ d ih =>
    simp only [cancel_factor]
    rcases Nat.lt_or_ge k (d + 1) with h | h
    · rw [ih (by omega)]; simp
    · have e : k = d + 1 := by omega
      subst e
      simp

/-- The central difference of a polynomial of degree at most 20 keeps the odd coefficients
only. -/
theorem central_difference_poly {α : Type} [LinearOrderedField α] (c : Nat → α)
    (g : α → α) (hg : ∀ h, g h = ∑ j in Finset.range 21, c j * h ^ j) (H : α)
    (hH : H ≠ 0) :
    central_difference g H = ∑ k in Finset.range 10, c (2 * k + 1) * (H ^ 2) ^ k := by
  simp only [central_difference, hg, Finset.sum_range_succ, Finset.sum_range_zero]
  field_simp
  ring

theorem richardson_table_poly {α : Type} [LinearOrderedField α] (c : Nat → α)
    (g : α → α) (hg : ∀ h, g h = ∑ j in Finset.range 21, c j * h ^ j) (d : Nat) :
    ∀ m, d ≤ m → richardson_table g m d
      = ∑ k in Finset.range 10,
          c (2 * k + 1) * cancel_factor k d * ((step_size m : α) ^ 2) ^ k := by
  induction d with
  | zero =>
    intro m _
    simp only [richardson_table, cancel_factor, mul_one]
    exact central_difference_poly c g hg _ (step_size_ne_zero m)
  | succ d ih =>
    intro m hm
    simp only [richardson_table, cancel_factor]
    rw [ih m (by omega), ih (m - 1) (by omega), step_size_pred_sq m (by omega),
      Finset.mul_sum, ← Finset.sum_sub_distrib, Finset.sum_div]
    refine Finset.sum_congr rfl (fun k _ => ?_)
    rw [mul_pow]
    ring

/-- Nine extrapolation orders on ten halved steps reproduce the linear coefficient of a
polynomial of degree at most 20 exactly. -/
theorem richardson_table_exact {α : Type} [LinearOrderedField α] (c : Nat → α)
    (g : α → α) (hg : ∀ h, g h = ∑ j in Finset.range 21, c j * h ^ j) :
    richardson_table g 9 9 = c 1 := by
  rw [richardson_table_poly c g hg 9 9 (le_refl _)]
  rw [Finset.sum_eq_single 0]
  · simp [cancel_factor_zero]
  · intro k hk hk0
    have hk9 : k ≤ 9 := by
      have := Finset.mem_range.mp hk
      omega
    rw [cancel_factor_vanish k 9 (Nat.pos_of_ne_zero hk0) hk9]
    simp
  · intro h
    exact absurd (Finset.mem_range.mpr (by decide)) h

/-! ## test_gen_jacobian_function : the table -/

theorem row_write {α : Type} [LinearOrderedField α] (outputs m d : Nat)
    (val : Nat → JacState α → Option α) (t : JacState α)
    (hval : ∀ n (D1 : Table α), (∀ n1 m1 d1, d1 ≠ d → D1 n1 m1 d1 = t.D n1 m1 d1) →
      val n { t with D := D1 } = val n t) :
    forLoop 0 outputs (fun n u => { u with D := u.D.set n m d (val n u) }) t
      = { t with D := fun n1 m1 d1 =>
            if n1 < outputs ∧ m1 = m ∧ d1 = d then val n1 t else t.D n1 m1 d1 } := by
  refine forLoop_inv
    (fun j (u : JacState α) => u = { t with D := fun n1 m1 d1 =>
        if n1 < j ∧ m1 = m ∧ d1 = d then val n1 t else t.D n1 m1 d1 })
    0 outputs (Nat.zero_le _) _ _ ?_ ?_
  · simp
  · intro j u _ _ hu
    subst hu
    have hv := hval j (fun n1 m1 d1 =>
        if n1 < j ∧ m1 = m ∧ d1 = d then val n1 t else t.D n1 m1 d1)
      (fun n1 m1 d1 hd => by simp [hd])
    simp only [hv]
    congr 1
    funext n1 m1 d1
    simp only [Table.set]
    by_cases h1 : n1 = j ∧ m1 = m ∧ d1 = d
    · obtain ⟨rfl, rfl, rfl⟩ := h1
      simp
    · rw [if_neg h1]
      by_cases h2 : n1 < j ∧ m1 = m ∧ d1 = d
      · rw [if_pos h2, if_pos ⟨by omega, h2.2.1, h2.2.2⟩]
      · rw [if_neg h2, if_neg]
        rintro ⟨h3, h4, h5⟩
        rcases Nat.lt_succ_iff_lt_or_eq.mp h3 with h6 | h6
        · exact h2 ⟨h6, h4, h5⟩
        · exact h1 ⟨h6, h4, h5⟩

theorem probe_loop {α : Type} [LinearOrderedField α] (sqrt : α → α)
    (nongen gen : general_fn α) (input : Block α) (outputs k : Nat) (t : JacState α) :
    ∃ c : Nat, forLoop 0 2 (probe_step sqrt nongen gen input outputs k) t
      = { t with out := nongen (perturbed input k 1 t.H),
                 out_pt := nongen (perturbed input k (-1) t.H),
                 mismatches := c } := by
  have e : forLoop 0 2 (probe_step sqrt nongen gen input outputs k) t
      = probe_step sqrt nongen gen input outputs k 1
          (probe_step sqrt nongen gen input outputs k 0 t) := by
    simp [forLoop, List.range']
  rw [e]
  simp only [probe_step, if_true, one_ne_zero, if_false]
  split_ifs <;> exact ⟨_, rfl⟩

/-- The central difference the code forms from `out` and `out_pt` (line 164). -/
theorem central_difference_probe {α : Type} [LinearOrderedField α] (f : general_fn α)
    (x : Block α) (k n : Nat) (H : α) :
    (f (perturbed x k 1 H) n - f (perturbed x k (-1) H) n) / 2 / H
      = central_difference (probe_fn f x k n) H := by
  simp only [central_difference, probe_fn, perturbed, one_mul, neg_one_mul, div_div]

theorem table_step_zero {α : Type} [LinearOrderedField α] (sqrt : α → α)
    (nongen gen : general_fn α) (input : Block α) (outputs k m : Nat) (t : JacState α) :
    (table_step sqrt nongen gen input outputs k 0 m t).D
        = (fun n1 m1 d1 => if n1 < outputs ∧ m1 = m ∧ d1 = 0
            then some (central_difference (probe_fn nongen input k n1) t.H)
            else t.D n1 m1 d1)
      ∧ (table_step sqrt nongen gen input outputs k 0 m t).H = t.H / 2
      ∧ (table_step sqrt nongen gen input outputs k 0 m t).output = t.output := by
  obtain ⟨c, hc⟩ := probe_loop sqrt nongen gen input outputs k t
  simp only [table_step, if_true, hc]
  rw [row_write outputs m 0
    (fun n u => some ((u.out n - u.out_pt n) / 2 / u.H)) _ (fun _ _ _ => rfl)]
  simp only [central_difference_probe, and_self]

theorem table_step_succ {α : Type} [LinearOrderedField α] (sqrt : α → α)
    (nongen gen : general_fn α) (input : Block α) (outputs k d m : Nat) (hd : 1 ≤ d)
    (t : JacState α) :
    table_step sqrt nongen gen input outputs k d m t
      = { t with D := fun n1 m1 d1 => if n1 < outputs ∧ m1 = m ∧ d1 = d
            then richardson d (t.D n1 m (d - 1)) (t.D n1 (m - 1) (d - 1))
            else t.D n1 m1 d1 } := by
  have hd0 : d ≠ 0 := by omega
  simp only [table_step, if_neg hd0]
  rw [row_write outputs m d
    (fun n u => richardson d (u.D n m (d - 1)) (u.D n (m - 1) (d - 1))) t]
  intro n D1 h
  simp only
  rw [h n m (d - 1) (by omega), h n (m - 1) (d - 1) (by omega)]

theorem order_step_zero {α : Type} [LinearOrderedField α] (sqrt : α → α)
    (nongen gen : general_fn α) (input : Block α) (outputs k : Nat) (t : JacState α) :
    (order_step sqrt nongen gen input outputs k 0 t).D
        = (fun n1 m1 d1 => if n1 < outputs ∧ m1 < M ∧ d1 = 0
            then some (central_difference (probe_fn nongen input k n1) (step_size m1))
            else t.D n1 m1 d1)
      ∧ (order_step sqrt nongen gen input outputs k 0 t).output = t.output := by
  have h := forLoop_inv
    (fun j (u : JacState α) =>
      u.D = (fun n1 m1 d1 => if n1 < outputs ∧ m1 < j ∧ d1 = 0
            then some (central_difference (probe_fn nongen input k n1) (step_size m1))
            else t.D n1 m1 d1)
      ∧ u.H = step_size j ∧ u.output = t.output)
    0 M (Nat.zero_le _) (table_step sqrt nongen gen input outputs k 0) { t with H := 2 }
    ?_ ?_
  · exact ⟨h.1, h.2.2⟩
  · refine ⟨?_, ?_, rfl⟩
    · funext n1 m1 d1; simp
    · simp [step_size]
  · intro j u _ _ hu
    obtain ⟨hD, hH, hO⟩ := hu
    obtain ⟨eD, eH, eO⟩ := table_step_zero sqrt nongen gen input outputs k j u
    refine ⟨?_, ?_, by rw [eO, hO]⟩
    · rw [eD, hD, hH]
      funext n1 m1 d1
      by_cases h1 : n1 < outputs ∧ m1 = j ∧ d1 = 0
      · obtain ⟨h2, rfl, rfl⟩ := h1
        simp [h2]
      · rw [if_neg h1]
        beta_reduce
        by_cases h2 : n1 < outputs ∧ m1 < j ∧ d1 = 0
        · rw [if_pos h2, if_pos ⟨h2.1, by omega, h2.2.2⟩]
        · rw [if_neg h2, if_neg]
          rintro ⟨h3, h4, h5⟩
          rcases Nat.lt_succ_iff_lt_or_eq.mp h4 with h6 | h6
          · exact h2 ⟨h3, h6, h5⟩
          · exact h1 ⟨h3, h6, h5⟩
    · rw [eH, hH]
      simp only [step_size, pow_succ]
      field_simp

theorem order_step_succ {α : Type} [LinearOrderedField α] (sqrt : α → α)
    (nongen gen : general_fn α) (input : Block α) (outputs k d : Nat) (hd : 1 ≤ d)
    (hdM : d ≤ M) (t : JacState α) :
    (order_step sqrt nongen gen input outputs k d t).D
        = (fun n1 m1 d1 => if n1 < outputs ∧ (d ≤ m1 ∧ m1 < M) ∧ d1 = d
            then richardson d (t.D n1 m1 (d - 1)) (t.D n1 (m1 - 1) (d - 1))
            else t.D n1 m1 d1)
      ∧ (order_step sqrt nongen gen input outputs k d t).output = t.output := by
  refine forLoop_inv
    (fun j (u : JacState α) =>
      u.D = (fun n1 m1 d1 => if n1 < outputs ∧ (d ≤ m1 ∧ m1 < j) ∧ d1 = d
            then richardson d (t.D n1 m1 (d - 1)) (t.D n1 (m1 - 1) (d - 1))
            else t.D n1 m1 d1)
      ∧ u.output = t.output)
    d M hdM (table_step sqrt nongen gen input outputs k d) { t with H := 2 }
    ?_ ?_
  · refine ⟨?_, rfl⟩
    funext n1 m1 d1
    rw [if_neg]
    rintro ⟨_, ⟨h1, h2⟩, _⟩
    omega
  · intro j u hj _ hu
    obtain ⟨hD, hO⟩ := hu
    rw [table_step_succ sqrt nongen gen input outputs k d j hd u]
    refine ⟨?_, hO⟩
    simp only
    have hlow : ∀ n1 m1, u.D n1 m1 (d - 1) = t.D n1 m1 (d - 1) := by
      intro n1 m1
      rw [hD]
      simp only
      rw [if_neg]
      rintro ⟨_, _, h3⟩
      omega
    funext n1 m1 d1
    by_cases h1 : n1 < outputs ∧ m1 = j ∧ d1 = d
    · obtain ⟨h2, rfl, rfl⟩ := h1
      rw [if_pos ⟨h2, rfl, rfl⟩, if_pos ⟨h2, ⟨hj, Nat.lt_succ_self _⟩, rfl⟩, hlow, hlow]
    · rw [if_neg h1, hD]
      simp only
      by_cases h2 : n1 < outputs ∧ (d ≤ m1 ∧ m1 < j) ∧ d1 = d
      · rw [if_pos h2, if_pos ⟨h2.1, ⟨h2.2.1.1, by omega⟩, h2.2.2⟩]
      · rw [if_neg h2, if_neg]
        rintro ⟨h3, ⟨h4, h4b⟩, h5⟩
        rcases Nat.lt_succ_iff_lt_or_eq.mp h4b with h6 | h6
        · exact h2 ⟨h3, ⟨h4, h6⟩, h5⟩
        · exact h1 ⟨h3, h6, h5⟩

/-- The table after the loops over `d` and `m`: every entry `D[n][m][d]` with
`n < outputs` and `d <= m <= 9` holds the Richardson table of output `n` of `nongen` as a
function of the perturbation of coordinate `k`. -/
theorem build_table_entries {α : Type} [LinearOrderedField α] (sqrt : α → α)
    (nongen gen : general_fn α) (input : Block α) (outputs k : Nat) (t : JacState α) :
    (∀ n m d, n < outputs → d ≤ m → m < M →
        (build_table sqrt nongen gen input outputs k t).D n m d
          = some (richardson_table (probe_fn nongen input k n) m d))
      ∧ (build_table sqrt nongen gen input outputs k t).output = t.output := by
  have h := forLoop_inv
    (fun j (u : JacState α) =>
      (∀ n m d, n < outputs → d < j → d ≤ m → m < M →
        u.D n m d = some (richardson_table (probe_fn nongen input k n) m d))
      ∧ u.output = t.output)
    0 M (Nat.zero_le _) (order_step sqrt nongen gen input outputs k)
    { t with D := nan_fill outputs t.D } ?_ ?_
  · refine ⟨fun n m d hn hdm hm => h.1 n m d hn (by omega) hdm hm, h.2⟩
  · exact ⟨fun n m d _ hd => absurd hd (Nat.not_lt_zero d), rfl⟩
  · intro j u _ hjM hu
    obtain ⟨hD, hO⟩ := hu
    rcases Nat.eq_zero_or_pos j with hj0 | hjpos
    · subst hj0
      obtain ⟨eD, eO⟩ := order_step_zero sqrt nongen gen input outputs k u
      refine ⟨?_, by rw [eO, hO]⟩
      intro n m d hn hd hdm hm
      have hd0 : d = 0 := by omega
      subst hd0
      rw [eD]
      beta_reduce
      rw [if_pos ⟨hn, hm, rfl⟩]
      simp only [richardson_table]
    · obtain ⟨eD, eO⟩ := order_step_succ sqrt nongen gen input outputs k j hjpos
        (Nat.le_of_lt hjM) u
      refine ⟨?_, by rw [eO, hO]⟩
      intro n m d hn hd hdm hm
      rw [eD]
      simp only
      rcases Nat.lt_succ_iff_lt_or_eq.mp hd with h1 | h1
      · rw [if_neg (by rintro ⟨_, _, h3⟩; omega)]
        exact hD n m d hn h1 hdm hm
      · subst h1
        rw [if_pos ⟨hn, ⟨hdm, hm⟩, rfl⟩]
        rw [hD n m (d - 1) hn (by omega) (by omega) hm,
          hD n (m - 1) (d - 1) hn (by omega) (by omega) (by omega)]
        obtain ⟨r, rfl⟩ : ∃ r, d = r + 1 := ⟨d - 1, by omega⟩
        simp only [richardson, richardson_table, Nat.add_sub_cancel]

theorem jacobian_loop_succ {α : Type} [LinearOrderedField α] (sqrt : α → α)
    (nongen gen : general_fn α) (input : Block α) (outputs jac_start_idx jac_length : Nat)
    (i : Nat) :
    jacobian_loop sqrt nongen gen input outputs jac_start_idx jac_length (i + 1)
      = collect outputs jac_length i
          (dimension_table sqrt nongen gen input outputs jac_start_idx jac_length i) := by
  unfold jacobian_loop
  rw [forLoop_succ 0 i (Nat.zero_le _)]
  rfl

/-- C5: in every iteration `i < jac_length`, for every step index `m <= 9` and output
`n < outputs`, the order-0 entry `D[n][m][0]` is
`(f(x + H e_k)[n] - f(x - H e_k)[n]) / (2 H)` with `f = nongen`, `H = 2 / 2^m`,
`k = jac_start_idx + i` and `x` the block drawn at the start of the call, which is also
the block given to the generated Jacobian; the two perturbed inputs are `x` with `H` added
to, respectively subtracted from, coordinate `k` and nothing else changed. -/
theorem order_zero_entries {α : Type} [LinearOrderedField α] (sizeofFLT : Nat)
    (sqrt : α → α) (input_fn : generate_input α)
    (nongen gen generated_jacobian : general_fn α)
    (outputs jac_start_idx jac_length draws : Nat) (i m n : Nat)
    (_hi : i < jac_length) (hm : m ≤ 9) (hn : n < outputs) :
    let r := test_gen_jacobian_function sizeofFLT sqrt input_fn nongen gen
      generated_jacobian outputs jac_start_idx jac_length draws
    let x := input_fn.fill draws
    let k := jac_start_idx + i
    let H : α := 2 / 2 ^ m
    r.input = x ∧ r.output_gen = generated_jacobian x
      ∧ jacobian_loop sqrt nongen gen x outputs jac_start_idx jac_length (i + 1)
          = collect outputs jac_length i
              (dimension_table sqrt nongen gen x outputs jac_start_idx jac_length i)
      ∧ (dimension_table sqrt nongen gen x outputs jac_start_idx jac_length i).D n m 0
          = some ((nongen (perturbed x k 1 H) n - nongen (perturbed x k (-1) H) n) / (2 * H))
      ∧ perturbed x k 1 H k = x k + H ∧ perturbed x k (-1) H k = x k - H
      ∧ ∀ j, j ≠ k → perturbed x k 1 H j = x j ∧ perturbed x k (-1) H j = x j := by
  intro r x k H
  refine ⟨rfl, rfl, jacobian_loop_succ _ _ _ _ _ _ _ _, ?_, ?_, ?_, ?_⟩
  · have h := (build_table_entries sqrt nongen gen x outputs k
      (jacobian_loop sqrt nongen gen x outputs jac_start_idx jac_length i)).1 n m 0 hn
      (Nat.zero_le _) (by simp only [M]; omega)
    unfold dimension_table
    rw [h]
    simp only [richardson_table, ← central_difference_probe, step_size, div_div]
  · simp [perturbed]
  · simp [perturbed, sub_eq_add_neg]
  · intro j hj
    simp [perturbed, Function.update_noteq hj]

/-- The order-0 entry of row 1 for the square of coordinate 0 at `x = 3`. -/
theorem order_zero_entries_witness :
    (0 < 1) ∧ (1 ≤ 9) ∧ (0 < 1) ∧
    (dimension_table (fun v : ℚ => v) (fun x _ => x 0 * x 0) (fun x _ => x 0 * x 0)
        (fun _ => 3) 1 0 1 0).D 0 1 0
      = some (((fun (x : Block ℚ) (_ : Nat) => x 0 * x 0)
                (perturbed (fun _ => (3 : ℚ)) (0 + 0) 1 (2 / 2 ^ 1)) 0
              - (fun (x : Block ℚ) (_ : Nat) => x 0 * x 0)
                (perturbed (fun _ => (3 : ℚ)) (0 + 0) (-1) (2 / 2 ^ 1)) 0)
              / (2 * (2 / 2 ^ 1))) :=
  ⟨by decide, by decide, by decide,
    (order_zero_entries 8 (fun v : ℚ => v) ⟨64, fun _ _ => 3⟩ (fun x _ => x 0 * x 0)
      (fun x _ => x 0 * x 0) (fun x => x) 1 0 1 0 0 1 0
      (by decide) (by decide) (by decide)).2.2.2.1⟩

/-- C6: in every iteration `i < jac_length`, for every output `n < outputs`, order
`1 <= d <= 9` and step index `d <= m <= 9`, the entries `D[n][m][d-1]` and `D[n][m-1][d-1]`
hold computed values `a` and `b` (not the `NAN` placeholder) and
`D[n][m][d] = (4^d * a - b) / (4^d - 1)`; an entry computed from a placeholder would be
the placeholder itself. -/
theorem extrapolated_entries {α : Type} [LinearOrderedField α] (sqrt : α → α)
    (nongen gen : general_fn α) (x : Block α)
    (outputs jac_start_idx jac_length : Nat) (i n d m : Nat)
    (_hi : i < jac_length) (hn : n < outputs) (hd : 1 ≤ d) (hdm : d ≤ m) (hm : m ≤ 9) :
    ∃ a b : α,
      (dimension_table sqrt nongen gen x outputs jac_start_idx jac_length i).D n m (d - 1)
          = some a
      ∧ (dimension_table sqrt nongen gen x outputs jac_start_idx jac_length i).D n (m - 1)
          (d - 1) = some b
      ∧ (dimension_table sqrt nongen gen x outputs jac_start_idx jac_length i).D n m d
          = some (((4 : α) ^ d * a - b) / ((4 : α) ^ d - 1))
      ∧ (dimension_table sqrt nongen gen x outputs jac_start_idx jac_length i).D n m d
          = richardson d
              ((dimension_table sqrt nongen gen x outputs jac_start_idx jac_length i).D n m
                (d - 1))
              ((dimension_table sqrt nongen gen x outputs jac_start_idx jac_length i).D n
                (m - 1) (d - 1)) := by
  have h := (build_table_entries sqrt nongen gen x outputs (jac_start_idx + i)
      (jacobian_loop sqrt nongen gen x outputs jac_start_idx jac_length i)).1
  have hM : m < M := by simp only [M]; omega
  have e1 := h n m (d - 1) hn (by omega) hM
  have e2 := h n (m - 1) (d - 1) hn (by omega) (by omega)
  have e3 := h n m d hn hdm hM
  obtain ⟨r, rfl⟩ : ∃ r, d = r + 1 := ⟨d - 1, by omega⟩
  simp only [Nat.add_sub_cancel] at e1 e2 ⊢
  refine ⟨_, _, e1, e2, ?_, ?_⟩
  · unfold dimension_table
    rw [e3]
    simp only [richardson_table]
  · unfold dimension_table
    rw [e1, e2, e3]
    simp only [richardson_table, richardson]

/-- The order-1 entry of row 2 for the square of coordinate 0 at `x = 3`. -/
theorem extrapolated_entries_witness :
    ∃ a b : ℚ,
      (dimension_table (fun v : ℚ => v) (fun x _ => x 0 * x 0) (fun x _ => x 0 * x 0)
          (fun _ => 3) 1 0 1 0).D 0 2 (1 - 1) = some a
      ∧ (dimension_table (fun v : ℚ => v) (fun x _ => x 0 * x 0) (fun x _ => x 0 * x 0)
          (fun _ => 3) 1 0 1 0).D 0 (2 - 1) (1 - 1) = some b
      ∧ (dimension_table (fun v : ℚ => v) (fun x _ => x 0 * x 0) (fun x _ => x 0 * x 0)
          (fun _ => 3) 1 0 1 0).D 0 2 1 = some (((4 : ℚ) ^ 1 * a - b) / ((4 : ℚ) ^ 1 - 1)) := by
  obtain ⟨a, b, h1, h2, h3, _⟩ :=
    extrapolated_entries (fun v : ℚ => v) (fun x _ => x 0 * x 0) (fun x _ => x 0 * x 0)
      (fun _ => 3) 1 0 1 0 0 1 2 (by decide) (by decide) (by decide) (by decide) (by decide)
  exact ⟨a, b, h1, h2, h3⟩

/-! ## test_gen_jacobian_function : the estimated Jacobian -/

theorem collect_spec {α : Type} (outputs jac_length i : Nat) (t : JacState α) :
    (collect outputs jac_length i t).output
      = t.output ++ (List.range outputs).map
          (fun n => (output_index jac_length i n, t.D n (M - 1) (M - 1))) := by
  have h := forLoop_inv
    (fun j (u : JacState α) => u.D = t.D ∧ u.output
      = t.output ++ (List.range j).map
          (fun n => (output_index jac_length i n, t.D n (M - 1) (M - 1))))
    0 outputs (Nat.zero_le _)
    (fun n u =>
      { u with output := u.output ++ [(output_index jac_length i n, u.D n (M - 1) (M - 1))] })
    t ?_ ?_
  · exact h.2
  · simp
  · intro j u _ _ hu
    obtain ⟨hD, hO⟩ := hu
    refine ⟨hD, ?_⟩
    simp only [hO, hD, List.range_succ, List.map_append, List.map_cons, List.map_nil,
      List.append_assoc]

/-- The stores to `output` after the first `j` dimensions. -/
theorem jacobian_loop_output {α : Type} [LinearOrderedField α] (sqrt : α → α)
    (nongen gen : general_fn α) (x : Block α) (outputs jac_start_idx jac_length : Nat)
    (j : Nat) :
    (jacobian_loop sqrt nongen gen x outputs jac_start_idx jac_length j).output
      = (List.range j).flatMap (fun i => (List.range outputs).map
          (fun n => (output_index jac_length i n,
            (dimension_table sqrt nongen gen x outputs jac_start_idx jac_length i).D n
              (M - 1) (M - 1)))) := by
  induction j with
  | zero => simp [jacobian_loop, forLoop_self, jac_init]
  | succ j ih =>
    rw [jacobian_loop_succ, collect_spec]
    have hO : (dimension_table sqrt nongen gen x outputs jac_start_idx jac_length j).output
        = (jacobian_loop sqrt nongen gen x outputs jac_start_idx jac_length j).output :=
      (build_table_entries sqrt nongen gen x outputs (jac_start_idx + j) _).2
    rw [hO, ih, List.range_succ, List.flatMap_append, List.flatMap_singleton]

theorem output_index_inj (J i1 n1 i2 n2 : Nat) (h1 : i1 < J) (h2 : i2 < J)
    (h : output_index J i1 n1 = output_index J i2 n2) : i1 = i2 ∧ n1 = n2 := by
  unfold output_index at h
  have e1 : (i1 + n1 * J) % J = i1 := by
    rw [Nat.add_mul_mod_self_right, Nat.mod_eq_of_lt h1]
  have e2 : (i2 + n2 * J) % J = i2 := by
    rw [Nat.add_mul_mod_self_right, Nat.mod_eq_of_lt h2]
  have hi : i1 = i2 := by rw [← e1, ← e2, h]
  subst hi
  have hJ : 0 < J := by omega
  exact ⟨rfl, Nat.eq_of_mul_eq_mul_right hJ (Nat.add_left_cancel h)⟩

theorem output_index_lt (J O i n : Nat) (hi : i < J) (hn : n < O) :
    output_index J i n < O * J := by
  unfold output_index
  calc i + n * J < J + n * J := by omega
    _ = (n + 1) * J := by ring
    _ ≤ O * J := Nat.mul_le_mul_right J hn

theorem output_index_surj (J O idx : Nat) (h : idx < O * J) :
    idx % J < J ∧ idx / J < O ∧ output_index J (idx % J) (idx / J) = idx := by
  have hJ : 0 < J := by
    rcases Nat.eq_zero_or_pos J with h0 | h0
    · subst h0; simp at h
    · exact h0
  refine ⟨Nat.mod_lt _ hJ, (Nat.div_lt_iff_lt_mul hJ).mpr h, ?_⟩
  unfold output_index
  rw [Nat.mul_comm]
  exact Nat.mod_add_div idx J

/-- The indices stored to, in program order, as a list. -/
theorem stored_indices_perm (J O : Nat) :
    ((List.range J).flatMap (fun i => (List.range O).map (fun n => output_index J i n))).Perm
      (List.range (O * J)) := by
  rw [List.perm_ext_iff_of_nodup _ (List.nodup_range _)]
  · intro idx
    simp only [List.mem_flatMap, List.mem_map, List.mem_range]
    constructor
    · rintro ⟨i, hi, n, hn, rfl⟩
      exact output_index_lt J O i n hi hn
    · intro h
      obtain ⟨h1, h2, h3⟩ := output_index_surj J O idx h
      exact ⟨_, h1, _, h2, h3⟩
  · rw [List.nodup_flatMap]
    constructor
    · intro i hi
      refine List.Nodup.map_on ?_ (List.nodup_range _)
      intro a _ b _ hab
      exact (output_index_inj J i a i b (List.mem_range.mp hi) (List.mem_range.mp hi) hab).2
    · refine List.Pairwise.imp_of_mem ?_ (List.pairwise_lt_range J)
      intro a b ha hb hab
      simp only [Function.onFun]
      intro v hva hvb
      simp only [List.mem_map, List.mem_range] at hva hvb
      obtain ⟨n1, _, rfl⟩ := hva
      obtain ⟨n2, _, e⟩ := hvb
      have := (output_index_inj J b n2 a n1 (List.mem_range.mp hb) (List.mem_range.mp ha) e).1
      omega

theorem load_of_mem {α : Type} (l : List (Nat × Option α)) (j : Nat) (v : Option α)
    (hmem : (j, v) ∈ l) (huniq : ∀ p ∈ l, p.1 = j → p.2 = v) : load l j = v := by
  unfold load
  cases hf : l.reverse.find? (fun p => p.1 = j) with
  | none =>
    rw [List.find?_eq_none] at hf
    exact absurd (by simp) (hf (j, v) (List.mem_reverse.mpr hmem))
  | some p =>
    have h1 := List.find?_some hf
    have h2 := List.mem_reverse.mp (List.mem_of_find?_eq_some hf)
    exact huniq p h2 (by simpa using h1)

/-- The value `output` holds at the index of output `n` and dimension `i`. -/
theorem load_output {α : Type} [LinearOrderedField α] (sqrt : α → α)
    (nongen gen : general_fn α) (x : Block α) (outputs jac_start_idx jac_length : Nat)
    (i n : Nat) (hi : i < jac_length) (hn : n < outputs) :
    load (jacobian_loop sqrt nongen gen x outputs jac_start_idx jac_length jac_length).output
        (output_index jac_length i n)
      = (dimension_table sqrt nongen gen x outputs jac_start_idx jac_length i).D n
          (M - 1) (M - 1) := by
  apply load_of_mem
  · rw [jacobian_loop_output]
    simp only [List.mem_flatMap, List.mem_map, List.mem_range]
    exact ⟨i, hi, n, hn, rfl⟩
  · intro p hp hpj
    rw [jacobian_loop_output] at hp
    simp only [List.mem_flatMap, List.mem_map, List.mem_range] at hp
    obtain ⟨i2, hi2, n2, _, rfl⟩ := hp
    obtain ⟨rfl, rfl⟩ := output_index_inj jac_length i2 n2 i n hi2 hi hpj
    rfl

theorem stored_indices {α : Type} [LinearOrderedField α] (sqrt : α → α)
    (nongen gen : general_fn α) (x : Block α) (outputs jac_start_idx jac_length : Nat) :
    (jacobian_loop sqrt nongen gen x outputs jac_start_idx jac_length jac_length).output.map
        Prod.fst
      = (List.range jac_length).flatMap
          (fun i => (List.range outputs).map (fun n => i + n * jac_length)) := by
  rw [jacobian_loop_output, List.map_flatMap]
  simp only [List.map_map]
  rfl

/-- C7: the stores to `output` are made one per pair of a dimension `i < jac_length` and
an output `n < outputs`, at index `i + n * jac_length`; the indices stored to are the
indices below `outputs * jac_length`, each exactly once (the list of stored indices is a
permutation of that range); and for `n < outputs`, `i < jac_length` the entry at index
`n * jac_length + i` is the final diagonal entry `D[n][9][9]` of the table of dimension
`i`, a computed value. -/
theorem estimated_jacobian_layout {α : Type} [LinearOrderedField α] (sizeofFLT : Nat)
    (sqrt : α → α) (input_fn : generate_input α)
    (nongen gen generated_jacobian : general_fn α)
    (outputs jac_start_idx jac_length draws : Nat) (n i : Nat)
    (hn : n < outputs) (hi : i < jac_length) :
    let r := test_gen_jacobian_function sizeofFLT sqrt input_fn nongen gen
      generated_jacobian outputs jac_start_idx jac_length draws
    let x := input_fn.fill draws
    r.output.map Prod.fst
        = (List.range jac_length).flatMap
            (fun i1 => (List.range outputs).map (fun n1 => i1 + n1 * jac_length))
      ∧ (r.output.map Prod.fst).Perm (List.range (outputs * jac_length))
      ∧ r.output.length = outputs * jac_length
      ∧ n * jac_length + i < outputs * jac_length
      ∧ load r.output (n * jac_length + i)
          = (dimension_table sqrt nongen gen x outputs jac_start_idx jac_length i).D n 9 9
      ∧ ∃ v : α, load r.output (n * jac_length + i) = some v := by
  intro r x
  have hidx : r.output.map Prod.fst
      = (List.range jac_length).flatMap
          (fun i1 => (List.range outputs).map (fun n1 => i1 + n1 * jac_length)) :=
    stored_indices sqrt nongen gen x outputs jac_start_idx jac_length
  have hperm : (r.output.map Prod.fst).Perm (List.range (outputs * jac_length)) := by
    rw [hidx]
    exact stored_indices_perm jac_length outputs
  have hload := load_output sqrt nongen gen x outputs jac_start_idx jac_length i n hi hn
  have hcomm : n * jac_length + i = output_index jac_length i n := by
    unfold output_index; omega
  refine ⟨hidx, hperm, ?_, ?_, ?_, ?_⟩
  · have := hperm.length_eq
    simpa using this
  · rw [hcomm]; exact output_index_lt jac_length outputs i n hi hn
  · rw [hcomm]; exact hload
  · rw [hcomm]
    exact ⟨richardson_table (probe_fn nongen x (jac_start_idx + i) n) 9 9, hload.trans
      ((build_table_entries sqrt nongen gen x outputs (jac_start_idx + i) _).1 n 9 9 hn
        (le_refl _) (by simp [M]))⟩

/-- Two outputs and one dimension: the indices 0 and 1 are stored to once each. -/
theorem estimated_jacobian_layout_witness :
    (1 < 2) ∧ (0 < 1) ∧
    ((test_gen_jacobian_function 8 (fun v : ℚ => v) ⟨64, fun _ _ => 3⟩
        (fun x _ => x 0 * x 0) (fun x _ => x 0 * x 0) (fun x => x) 2 0 1 0).output.map
          Prod.fst).Perm (List.range (2 * 1)) :=
  ⟨by decide, by decide,
    (estimated_jacobian_layout 8 (fun v : ℚ => v) ⟨64, fun _ _ => 3⟩
      (fun x _ => x 0 * x 0) (fun x _ => x 0 * x 0) (fun x => x) 2 0 1 0 1 0
      (by decide) (by decide)).2.1⟩

/-- C10: when output `n` of the reference function, as a function of the input coordinate
`k = jac_start_idx + i` with the other coordinates held at the base input `x`, is a
polynomial `p` of degree at most 20, the final diagonal entry `D[n][9][9]` of dimension
`i`, which is the estimate stored at index `i + n * jac_length`, equals the derivative of
`p` at `x[k]`, the exact partial derivative. -/
theorem estimate_exact_on_polynomials {α : Type} [LinearOrderedField α] (sizeofFLT : Nat)
    (sqrt : α → α) (input_fn : generate_input α)
    (nongen gen generated_jacobian : general_fn α)
    (outputs jac_start_idx jac_length draws : Nat) (n i : Nat)
    (hn : n < outputs) (hi : i < jac_length)
    (p : Polynomial α) (hdeg : p.natDegree ≤ 20)
    (hp : ∀ t : α,
      nongen (Function.update (input_fn.fill draws) (jac_start_idx + i) t) n = p.eval t) :
    (dimension_table sqrt nongen gen (input_fn.fill draws) outputs jac_start_idx jac_length
        i).D n 9 9
        = some ((Polynomial.derivative p).eval (input_fn.fill draws (jac_start_idx + i)))
      ∧ load (test_gen_jacobian_function sizeofFLT sqrt input_fn nongen gen
            generated_jacobian outputs jac_start_idx jac_length draws).output
          (i + n * jac_length)
        = some ((Polynomial.derivative p).eval (input_fn.fill draws (jac_start_idx + i))) := by
  have hg : ∀ h : α, probe_fn nongen (input_fn.fill draws) (jac_start_idx + i) n h
      = ∑ j in Finset.range 21,
          (Polynomial.taylor (input_fn.fill draws (jac_start_idx + i)) p).coeff j * h ^ j := by
    intro h
    simp only [probe_fn]
    rw [hp, add_comm, ← Polynomial.taylor_eval]
    exact Polynomial.eval_eq_sum_range'
      (by rw [Polynomial.natDegree_taylor]; omega) h
  have hex := richardson_table_exact _ _ hg
  rw [Polynomial.taylor_coeff_one] at hex
  have hD : (dimension_table sqrt nongen gen (input_fn.fill draws) outputs jac_start_idx
      jac_length i).D n 9 9
        = some ((Polynomial.derivative p).eval (input_fn.fill draws (jac_start_idx + i))) := by
    rw [← hex]
    exact (build_table_entries sqrt nongen gen (input_fn.fill draws) outputs
      (jac_start_idx + i) _).1 n 9 9 hn (le_refl _) (by simp [M])
  refine ⟨hD, ?_⟩
  rw [← hD]
  exact load_output sqrt nongen gen (input_fn.fill draws) outputs jac_start_idx jac_length
    i n hi hn

/-- The estimate for the square of coordinate 0 is the derivative of `X ^ 2`. -/
theorem estimate_exact_on_polynomials_witness :
    load (test_gen_jacobian_function 8 (fun v : ℚ => v) ⟨64, fun _ _ => 3⟩
          (fun x _ => x 0 ^ 2) (fun x _ => x 0 ^ 2) (fun x => x) 1 0 1 0).output
        (0 + 0 * 1)
      = some ((Polynomial.derivative (Polynomial.X ^ 2 : Polynomial ℚ)).eval
          ((fun _ : Nat => (3 : ℚ)) (0 + 0))) :=
  (estimate_exact_on_polynomials 8 (fun v : ℚ => v) ⟨64, fun _ _ => 3⟩
    (fun x _ => x 0 ^ 2) (fun x _ => x 0 ^ 2) (fun x => x) 1 0 1 0 0 0
    (by decide) (by decide) (Polynomial.X ^ 2)
    (le_trans (Polynomial.natDegree_X_pow_le 2) (by decide))
    (by intro t; simp)).2

/-- A clock that reads `0, 1, 2, ...` lets the value check of the identity against itself
return. -/
theorem test_gen_function_final_sample_witness :
    (∀ s : Nat, ∃ k : Nat, (fun n : Nat => (n : ℚ)) s + 1 ≤ (fun n : Nat => (n : ℚ)) (s + k))
    ∧ ∃ N : Nat, ∀ fuel, N ≤ fuel → ∃ v : ValueResult ℚ,
        test_gen_function (fun v : ℚ => v) (fun n : Nat => (n : ℚ)) fuel
          ⟨64, fun _ _ => 3⟩ (fun x => x) (fun x => x) 1 (fun _ => 0) ⟨0, 0⟩ = some v :=
  ⟨fun s => ⟨1, by push_cast; exact le_refl _⟩,
    (test_gen_function_final_sample (fun v : ℚ => v) (fun n : Nat => (n : ℚ))
      ⟨64, fun _ _ => 3⟩ (fun x => x) (fun x => x) 1 (fun _ => 0) ⟨0, 0⟩
      (fun s => ⟨1, by push_cast; exact le_refl _⟩)).imp
      (fun _ h fuel hf => (h fuel hf).imp (fun _ hv => hv.1))⟩

/-! ## test_gen_function_def : facts -/

/-- The error `test_gen_jacobian_function` returns is a number, never `NAN`. -/
theorem jacobian_err_is_some {α : Type} [LinearOrderedField α] (sizeofFLT : Nat)
    (sqrt : α → α) (input_fn : generate_input α)
    (nongen gen generated_jacobian : general_fn α)
    (outputs jac_start_idx jac_length draws : Nat) :
    ∃ e : α, (test_gen_jacobian_function sizeofFLT sqrt input_fn nongen gen
      generated_jacobian outputs jac_start_idx jac_length draws).err = some e := by
  have hall : (List.range (outputs * jac_length)).all
      (fun j => (load (jacobian_loop sqrt nongen gen (input_fn.fill draws) outputs
        jac_start_idx jac_length jac_length).output j).isSome) = true := by
    rw [List.all_eq_true]
    intro idx hidx
    obtain ⟨h1, h2, h3⟩ := output_index_surj jac_length outputs idx (List.mem_range.mp hidx)
    rw [← h3, load_output sqrt nongen gen _ outputs jac_start_idx jac_length _ _ h1 h2]
    unfold dimension_table
    rw [(build_table_entries sqrt nongen gen _ outputs _ _).1 _ (M - 1) (M - 1) h2
      (le_refl _) (by simp [M])]
    rfl
  simp only [test_gen_jacobian_function, read_all, hall, if_true, Option.map_some']
  exact ⟨_, rfl⟩

theorem range_map_shift {β : Type} (f : Nat → β) (c : Nat) :
    (List.range (c + 1)).map f = f 0 :: (List.range c).map (fun j => f (j + 1)) := by
  rw [List.range_succ_eq_map, List.map_cons, List.map_map]
  rfl

theorem range_any_shift (f : Nat → Bool) (c : Nat) :
    (List.range (c + 1)).any f = (f 0 || (List.range c).any (fun j => f (j + 1))) := by
  rw [List.range_succ_eq_map, List.any_cons, List.any_map]
  rfl

theorem jacobian_checks_spec {α : Type} [LinearOrderedField α] (sizeofFLT : Nat)
    (sqrt : α → α) (fdef : gen_function_def α) (fuel : Nat) :
    ∀ (i : Nat) (s : DefState α), i + fuel = 16 →
      (jacobian_checks sizeofFLT sqrt fdef fuel i s).checked
          = s.checked ++ (List.range ((List.range' i fuel).takeWhile
              (fun j => ((fdef.jacobians j).jacobian).isSome)).length).map
              (fun j => (i + j, jacobian_error sizeofFLT sqrt fdef (i + j) (s.draws + j)))
        ∧ (jacobian_checks sizeofFLT sqrt fdef fuel i s).failed
          = (s.failed || (List.range ((List.range' i fuel).takeWhile
              (fun j => ((fdef.jacobians j).jacobian).isSome)).length).any
              (fun j => nan_gt (jacobian_error sizeofFLT sqrt fdef (i + j) (s.draws + j)) tol))
        ∧ ∀ j, j < ((List.range' i fuel).takeWhile
              (fun j => ((fdef.jacobians j).jacobian).isSome)).length →
            ((fdef.jacobians (i + j)).jacobian).isSome = true := by
  induction fuel with
  | zero =>
    intro i s _
    simp [jacobian_checks]
  | succ fuel ih =>
    intro i s hi
    have hi16 : i < 16 := by omega
    cases hjac : (fdef.jacobians i).jacobian with
    | none =>
      simp [jacobian_checks, hi16, hjac, List.range'_succ, List.takeWhile_cons]
    | some jac =>
      have htw : ((List.range' i (fuel + 1)).takeWhile
            (fun j => ((fdef.jacobians j).jacobian).isSome)).length
          = ((List.range' (i + 1) fuel).takeWhile
            (fun j => ((fdef.jacobians j).jacobian).isSome)).length + 1 := by
        simp [List.range'_succ, List.takeWhile_cons, hjac]
      rw [htw]
      obtain ⟨h1, h2, h3⟩ := ih (i + 1)
        { failed := s.failed || nan_gt (test_gen_jacobian_function sizeofFLT sqrt
            fdef.generate_inputs fdef.check fdef.generated jac fdef.outputs
            (fdef.jacobians i).jacobian_start_idx (fdef.jacobians i).jacobian_length
            s.draws).err tol,
          draws := s.draws + 1,
          checked := s.checked ++ [(i, (test_gen_jacobian_function sizeofFLT sqrt
            fdef.generate_inputs fdef.check fdef.generated jac fdef.outputs
            (fdef.jacobians i).jacobian_start_idx (fdef.jacobians i).jacobian_length
            s.draws).err)] } (by omega)
      have e1 : ∀ j, i + 1 + j = i + (j + 1) := by intro j; omega
      have e2 : ∀ j, s.draws + 1 + j = s.draws + (j + 1) := by intro j; omega
      have e0 : jacobian_error sizeofFLT sqrt fdef i s.draws
          = (test_gen_jacobian_function sizeofFLT sqrt
            fdef.generate_inputs fdef.check fdef.generated jac fdef.outputs
            (fdef.jacobians i).jacobian_start_idx (fdef.jacobians i).jacobian_length
            s.draws).err := by
        simp only [jacobian_error, hjac]
      have hstep : jacobian_checks sizeofFLT sqrt fdef (fuel + 1) i s
          = jacobian_checks sizeofFLT sqrt fdef fuel (i + 1)
            { failed := s.failed || nan_gt (test_gen_jacobian_function sizeofFLT sqrt
                fdef.generate_inputs fdef.check fdef.generated jac fdef.outputs
                (fdef.jacobians i).jacobian_start_idx (fdef.jacobians i).jacobian_length
                s.draws).err tol,
              draws := s.draws + 1,
              checked := s.checked ++ [(i, (test_gen_jacobian_function sizeofFLT sqrt
                fdef.generate_inputs fdef.check fdef.generated jac fdef.outputs
                (fdef.jacobians i).jacobian_start_idx (fdef.jacobians i).jacobian_length
                s.draws).err)] } := by
        simp only [jacobian_checks, hi16, if_true, hjac]
        rfl
      rw [hstep]
      refine ⟨?_, ?_, ?_⟩
      · rw [h1, range_map_shift]
        simp only [e1, e2, e0, Nat.add_zero, List.append_assoc, List.singleton_append]
      · rw [h2, range_any_shift]
        simp only [e1, e2, e0, Nat.add_zero, Bool.or_assoc]
      · intro j hj
        rcases Nat.eq_zero_or_pos j with h0 | hpos
        · subst h0; simp [hjac]
        · obtain ⟨j1, rfl⟩ : ∃ j1, j = j1 + 1 := ⟨j - 1, by omega⟩
          have := h3 j1 (by omega)
          rwa [e1] at this

theorem owned_count_le {α : Type} (fdef : gen_function_def α) : owned_count fdef ≤ 16 := by
  unfold owned_count
  exact le_trans (List.takeWhile_sublist _).length_le (by simp)

/-- C2: when the clock keeps advancing, `test_gen_function_def` (given enough fuel for the
timing loops of the value check) returns.  It runs `test_gen_jacobian_function` for the
descriptors `0, 1, ..., c - 1` in this order, `c <= 16` being the number of entries of
`jacobians` before the first one with a null `jacobian`, whatever the value check and the
earlier Jacobian checks returned.  Its status is 0 exactly when the error returned by
`test_gen_function` is at most `1e-5` and the error returned by each of these Jacobian
checks is at most `1e-5`, and is -1 otherwise. -/
theorem test_gen_function_def_status {α : Type} [LinearOrderedField α] (sizeofFLT : Nat)
    (sqrt : α → α) (clock : Nat → α) (out0 : Block α) (fdef : gen_function_def α)
    (w : World) (hclock : ∀ s, ∃ k, clock s + 1 ≤ clock (s + k)) :
    ∃ N : Nat, ∀ fuel, N ≤ fuel → ∃ (v : ValueResult α) (r : DefResult α),
      test_gen_function sqrt clock fuel fdef.generate_inputs fdef.check fdef.generated
          fdef.outputs out0 w = some v
      ∧ test_gen_function_def sizeofFLT sqrt clock fuel out0 fdef w = some r
      ∧ owned_count fdef ≤ 16
      ∧ r.checked.map Prod.fst = List.range (owned_count fdef)
      ∧ (∀ j, j < owned_count fdef → ∃ (jac : general_fn α) (e : α),
          (fdef.jacobians j).jacobian = some jac
          ∧ (test_gen_jacobian_function sizeofFLT sqrt fdef.generate_inputs fdef.check
              fdef.generated jac fdef.outputs (fdef.jacobians j).jacobian_start_idx
              (fdef.jacobians j).jacobian_length (v.world.draws + j)).err = some e
          ∧ r.checked[j]? = some (j, some e))
      ∧ (r.status = 0 ↔
          v.err ≤ (1 / 100000 : α)
          ∧ ∀ j, j < owned_count fdef → ∀ jac : general_fn α,
              (fdef.jacobians j).jacobian = some jac →
              ∃ e : α, (test_gen_jacobian_function sizeofFLT sqrt fdef.generate_inputs
                  fdef.check fdef.generated jac fdef.outputs
                  (fdef.jacobians j).jacobian_start_idx
                  (fdef.jacobians j).jacobian_length (v.world.draws + j)).err = some e
                ∧ e ≤ (1 / 100000 : α))
      ∧ (r.status = 0 ∨ r.status = -1) := by
  obtain ⟨N, v, _, _, _, hN⟩ := test_gen_function_returns sqrt clock fdef.generate_inputs
    fdef.check fdef.generated fdef.outputs out0 w hclock
  refine ⟨N, fun fuel hf => ?_⟩
  have hspec := jacobian_checks_spec sizeofFLT sqrt fdef 16 0
    { failed := false || decide (v.err > tol), draws := v.world.draws, checked := [] } rfl
  have hdef : test_gen_function_def sizeofFLT sqrt clock fuel out0 fdef w
      = some
        { status := if (jacobian_checks sizeofFLT sqrt fdef 16 0
              { failed := false || decide (v.err > tol), draws := v.world.draws,
                checked := [] }).failed = true then (-1 : Int) else 0
          value_err := v.err
          checked := (jacobian_checks sizeofFLT sqrt fdef 16 0
              { failed := false || decide (v.err > tol), draws := v.world.draws,
                checked := [] }).checked
          world := { draws := (jacobian_checks sizeofFLT sqrt fdef 16 0
              { failed := false || decide (v.err > tol), draws := v.world.draws,
                checked := [] }).draws, ticks := v.world.ticks } } := by
    unfold test_gen_function_def
    rw [hN fuel hf]
  generalize jacobian_checks sizeofFLT sqrt fdef 16 0
    { failed := false || decide (v.err > tol), draws := v.world.draws, checked := [] } = S
    at hspec hdef
  obtain ⟨h1, h2, h3⟩ := hspec
  have hc : ((List.range' 0 16).takeWhile
      (fun j => ((fdef.jacobians j).jacobian).isSome)).length = owned_count fdef := by
    unfold owned_count
    rw [List.range_eq_range']
  rw [hc] at h1 h2 h3
  simp only [Nat.zero_add, List.nil_append, Bool.false_or] at h1 h2 h3
  -- every owned descriptor has a Jacobian and its check returns a number
  have hown : ∀ j, j < owned_count fdef → ∃ (jac : general_fn α) (e : α),
      (fdef.jacobians j).jacobian = some jac
      ∧ (test_gen_jacobian_function sizeofFLT sqrt fdef.generate_inputs fdef.check
          fdef.generated jac fdef.outputs (fdef.jacobians j).jacobian_start_idx
          (fdef.jacobians j).jacobian_length (v.world.draws + j)).err = some e
      ∧ jacobian_error sizeofFLT sqrt fdef j (v.world.draws + j) = some e := by
    intro j hj
    obtain ⟨jac, hjac⟩ := Option.isSome_iff_exists.mp (h3 j hj)
    obtain ⟨e, he⟩ := jacobian_err_is_some sizeofFLT sqrt fdef.generate_inputs fdef.check
      fdef.generated jac fdef.outputs (fdef.jacobians j).jacobian_start_idx
      (fdef.jacobians j).jacobian_length (v.world.draws + j)
    refine ⟨jac, e, hjac, he, ?_⟩
    simp only [jacobian_error, hjac, he]
  have hfailed : S.failed = false ↔
      v.err ≤ (1 / 100000 : α)
        ∧ ∀ j, j < owned_count fdef →
            nan_gt (jacobian_error sizeofFLT sqrt fdef j (v.world.draws + j)) tol = false := by
    rw [h2, Bool.or_eq_false_iff, List.any_eq_false]
    simp only [decide_eq_false_iff_not, not_lt, gt_iff_lt, List.mem_range, tol,
      Bool.not_eq_true]
  refine ⟨v, _, hN fuel hf, hdef, owned_count_le fdef, ?_, ?_, ?_, ?_⟩
  · simp only [h1, List.map_map]
    exact List.map_id _
  · intro j hj
    obtain ⟨jac, e, hjac, he, hje⟩ := hown j hj
    refine ⟨jac, e, hjac, he, ?_⟩
    simp only [h1]
    rw [List.getElem?_map, List.getElem?_range hj]
    simp only [Option.map_some', hje]
  · simp only
    constructor
    · intro hst
      have hf0 : S.failed = false := by
        by_contra hne
        rw [Bool.not_eq_false] at hne
        rw [hne] at hst
        simp at hst
      obtain ⟨hv, hj⟩ := hfailed.mp hf0
      refine ⟨hv, fun j hjlt jac hjac => ?_⟩
      obtain ⟨jac1, e, hjac1, he, hje⟩ := hown j hjlt
      rw [hjac] at hjac1
      cases hjac1
      refine ⟨e, he, ?_⟩
      have := hj j hjlt
      rw [hje] at this
      simpa [nan_gt, tol] using this
    · rintro ⟨hv, hj⟩
      have hf0 : S.failed = false := hfailed.mpr ⟨hv, fun j hjlt => by
        obtain ⟨jac, e, hjac, he, hje⟩ := hown j hjlt
        obtain ⟨e1, he1, hle⟩ := hj j hjlt jac hjac
        rw [he] at he1
        cases he1
        rw [hje]
        simpa [nan_gt, tol] using hle⟩
      rw [hf0]
      rfl
  · simp only
    split_ifs
    · right; rfl
    · left; rfl

/-- A clock that reads `0, 1, 2, ...` lets the check of a descriptor with one Jacobian
return a status. -/
theorem test_gen_function_def_status_witness :
    (∀ s : Nat, ∃ k : Nat, (fun n : Nat => (n : ℚ)) s + 1 ≤ (fun n : Nat => (n : ℚ)) (s + k))
    ∧ ∃ N : Nat, ∀ fuel, N ≤ fuel → ∃ r : DefResult ℚ,
        test_gen_function_def 8 (fun v : ℚ => v) (fun n : Nat => (n : ℚ)) fuel (fun _ => 0)
          { name := "square", generated := fun x _ => x 0 * x 0, check := fun x _ => x 0 * x 0,
            generate_inputs := ⟨8, fun _ _ => 3⟩, outputs := 1,
            jacobians := fun j =>
              { suffix := "x", jacobian := if j = 0 then some (fun x _ => 2 * x 0) else none,
                jacobian_start_idx := 0, jacobian_length := 1 } }
          ⟨0, 0⟩ = some r
        ∧ (r.status = 0 ∨ r.status = -1) :=
  ⟨fun s => ⟨1, by push_cast; exact le_refl _⟩,
    (test_gen_function_def_status 8 (fun v : ℚ => v) (fun n : Nat => (n : ℚ)) (fun _ => 0)
      { name := "square", generated := fun x _ => x 0 * x 0, check := fun x _ => x 0 * x 0,
        generate_inputs := ⟨8, fun _ _ => 3⟩, outputs := 1,
        jacobians := fun j =>
          { suffix := "x", jacobian := if j = 0 then some (fun x _ => 2 * x 0) else none,
            jacobian_start_idx := 0, jacobian_length := 1 } }
      ⟨0, 0⟩ (fun s => ⟨1, by push_cast; exact le_refl _⟩)).imp
      (fun _ h fuel hf => by
        obtain ⟨_, r, _, h2, _, _, _, _, h7⟩ := h fuel hf
        exact ⟨r, h2, h7⟩)⟩

/-! ## The registered quaternion cases : facts -/

theorem quatrotateabout_owned {α : Type} [LinearOrderedField α] (E : Extern α)
    (K : Kernels α) (k0 : Nat) (buf0 : Block α) :
    owned_count (quatrotateabout_def E K k0 buf0) = 2 := by
  simp [owned_count, quatrotateabout_def, null_jacobian_def, List.range, List.range.loop,
    List.takeWhile]

theorem quatrotatevector_owned {α : Type} [LinearOrderedField α] (E : Extern α)
    (K : Kernels α) (k0 : Nat) (buf0 : Block α) :
    owned_count (quatrotatevector_def E K k0 buf0) = 2 := by
  simp [owned_count, quatrotatevector_def, null_jacobian_def, List.range, List.range.loop,
    List.takeWhile]

theorem quat_input_scalars {α : Type} [LinearOrderedField α] (E : Extern α)
    (K : Kernels α) (k0 : Nat) (buf0 : Block α) (hsz : 0 < E.sizeofFLT) :
    input_scalars E.sizeofFLT (quatrotateabout_def E K k0 buf0) = 8
      ∧ input_scalars E.sizeofFLT (quatrotatevector_def E K k0 buf0) = 7 := by
  constructor
  · simp only [input_scalars, quatrotateabout_def, as_generate_input, random_quat_quat]
    exact Nat.mul_div_cancel_left 8 hsz
  · simp only [input_scalars, quatrotatevector_def, as_generate_input, random_quat_vec3]
    exact Nat.mul_div_cancel_left 7 hsz

/-- C11: `quatrotateabout_def` has 8 input scalars and `quatrotatevector_def` 7, each owns
two Jacobian descriptors, and for each owned descriptor `j`
`jacobian_start_idx + jacobian_length` is at most the number `inputs` of input scalars that
`test_gen_jacobian_function` computes in its check, so every index `jac_start_idx + i`
with `i < jac_length` that the check perturbs lies inside the input block; moreover
`jacobian_length >= 1`, so the length `outputs * jac_length` (and `outputs`) that
`diff_array` divides by is not zero. -/
theorem registered_jacobians_in_bounds {α : Type} [LinearOrderedField α] (E : Extern α)
    (K : Kernels α) (k0 : Nat) (buf0 : Block α) (sqrt : α → α) (draws j : Nat)
    (hsz : 0 < E.sizeofFLT) (hj : j < 2) :
    owned_count (quatrotateabout_def E K k0 buf0) = 2
      ∧ owned_count (quatrotatevector_def E K k0 buf0) = 2
      ∧ (∃ jac : general_fn α,
          ((quatrotateabout_def E K k0 buf0).jacobians j).jacobian = some jac
          ∧ (test_gen_jacobian_function E.sizeofFLT sqrt
              (quatrotateabout_def E K k0 buf0).generate_inputs
              (quatrotateabout_def E K k0 buf0).check
              (quatrotateabout_def E K k0 buf0).generated jac
              (quatrotateabout_def E K k0 buf0).outputs
              ((quatrotateabout_def E K k0 buf0).jacobians j).jacobian_start_idx
              ((quatrotateabout_def E K k0 buf0).jacobians j).jacobian_length draws).inputs = 8
          ∧ ((quatrotateabout_def E K k0 buf0).jacobians j).jacobian_start_idx
              + ((quatrotateabout_def E K k0 buf0).jacobians j).jacobian_length ≤ 8
          ∧ (∀ i, i < ((quatrotateabout_def E K k0 buf0).jacobians j).jacobian_length →
              ((quatrotateabout_def E K k0 buf0).jacobians j).jacobian_start_idx + i < 8)
          ∧ 1 ≤ ((quatrotateabout_def E K k0 buf0).jacobians j).jacobian_length
          ∧ 1 ≤ (quatrotateabout_def E K k0 buf0).outputs
          ∧ 1 ≤ (quatrotateabout_def E K k0 buf0).outputs
              * ((quatrotateabout_def E K k0 buf0).jacobians j).jacobian_length)
      ∧ (∃ jac : general_fn α,
          ((quatrotatevector_def E K k0 buf0).jacobians j).jacobian = some jac
          ∧ (test_gen_jacobian_function E.sizeofFLT sqrt
              (quatrotatevector_def E K k0 buf0).generate_inputs
              (quatrotatevector_def E K k0 buf0).check
              (quatrotatevector_def E K k0 buf0).generated jac
              (quatrotatevector_def E K k0 buf0).outputs
              ((quatrotatevector_def E K k0 buf0).jacobians j).jacobian_start_idx
              ((quatrotatevector_def E K k0 buf0).jacobians j).jacobian_length draws).inputs = 7
          ∧ ((quatrotatevector_def E K k0 buf0).jacobians j).jacobian_start_idx
              + ((quatrotatevector_def E K k0 buf0).jacobians j).jacobian_length ≤ 7
          ∧ (∀ i, i < ((quatrotatevector_def E K k0 buf0).jacobians j).jacobian_length →
              ((quatrotatevector_def E K k0 buf0).jacobians j).jacobian_start_idx + i < 7)
          ∧ 1 ≤ ((quatrotatevector_def E K k0 buf0).jacobians j).jacobian_length
          ∧ 1 ≤ (quatrotatevector_def E K k0 buf0).outputs
          ∧ 1 ≤ (quatrotatevector_def E K k0 buf0).outputs
              * ((quatrotatevector_def E K k0 buf0).jacobians j).jacobian_length) := by
  obtain ⟨h8, h7⟩ := quat_input_scalars E K k0 buf0 hsz
  have hin8 : ∀ (jac : general_fn α) (a b : Nat),
      (test_gen_jacobian_function E.sizeofFLT sqrt
        (quatrotateabout_def E K k0 buf0).generate_inputs
        (quatrotateabout_def E K k0 buf0).check
        (quatrotateabout_def E K k0 buf0).generated jac
        (quatrotateabout_def E K k0 buf0).outputs a b draws).inputs = 8 := fun _ _ _ => h8
  have hin7 : ∀ (jac : general_fn α) (a b : Nat),
      (test_gen_jacobian_function E.sizeofFLT sqrt
        (quatrotatevector_def E K k0 buf0).generate_inputs
        (quatrotatevector_def E K k0 buf0).check
        (quatrotatevector_def E K k0 buf0).generated jac
        (quatrotatevector_def E K k0 buf0).outputs a b draws).inputs = 7 := fun _ _ _ => h7
  refine ⟨quatrotateabout_owned E K k0 buf0, quatrotatevector_owned E K k0 buf0, ?_, ?_⟩
  · rcases Nat.lt_succ_iff_lt_or_eq.mp hj with h | h
    · have h0 : j = 0 := by omega
      subst h0
      refine ⟨general_two_pointers K.gen_quatrotateabout_jac_q1, rfl, hin8 _ _ _, ?_⟩
      simp only [quatrotateabout_def, if_true]
      refine ⟨by omega, fun i hi => by omega, by omega, by omega, by omega⟩
    · subst h
      refine ⟨general_two_pointers K.gen_quatrotateabout_jac_q2, rfl, hin8 _ _ _, ?_⟩
      simp only [quatrotateabout_def, one_ne_zero, if_false, if_true]
      refine ⟨by omega, fun i hi => by omega, by omega, by omega, by omega⟩
  · rcases Nat.lt_succ_iff_lt_or_eq.mp hj with h | h
    · have h0 : j = 0 := by omega
      subst h0
      refine ⟨general_two_pointers K.gen_quatrotatevector_jac_q, rfl, hin7 _ _ _, ?_⟩
      simp only [quatrotatevector_def, if_true]
      refine ⟨by omega, fun i hi => by omega, by omega, by omega, by omega⟩
    · subst h
      refine ⟨general_two_pointers K.gen_quatrotatevector_jac_pt, rfl, hin7 _ _ _, ?_⟩
      simp only [quatrotatevector_def, one_ne_zero, if_false, if_true]
      refine ⟨by omega, fun i hi => by omega, by omega, by omega, by omega⟩

/-- With 8-byte scalars, the second Jacobian descriptor of `quatrotatevector_def`
(start 4, length 3) ends at the end of the 7-scalar input block. -/
theorem registered_jacobians_in_bounds_witness :
    (0 < 8) ∧ (1 < 2)
    ∧ owned_count
      (quatrotatevector_def
      ({ sizeofFLT := 8, M_PI := 3, RAND_MAX := 100, rand := fun k => (k : ℚ),
          quat_of_euler := fun a b c _ => a + b + c, copy3d := fun b _ _ => b,
          survive_apply_ang_velocity := fun b _ _ _ => b, gen_imu_rot_f := fun b _ _ => b }
        : Extern ℚ)
      ({ quatrotateabout := fun a _ => a, gen_quatrotateabout := fun a _ => a,
          gen_quatrotateabout_jac_q1 := fun a _ => a, gen_quatrotateabout_jac_q2 := fun a _ => a,
          quatrotatevector := fun a _ => a, gen_quatrotatevector := fun a _ => a,
          gen_quatrotatevector_jac_q := fun a _ => a, gen_quatrotatevector_jac_pt := fun a _ => a }
        : Kernels ℚ)
      0 (fun _ => 0)) = 2
    ∧ (((quatrotatevector_def
      ({ sizeofFLT := 8, M_PI := 3, RAND_MAX := 100, rand := fun k => (k : ℚ),
          quat_of_euler := fun a b c _ => a + b + c, copy3d := fun b _ _ => b,
          survive_apply_ang_velocity := fun b _ _ _ => b, gen_imu_rot_f := fun b _ _ => b }
        : Extern ℚ)
      ({ quatrotateabout := fun a _ => a, gen_quatrotateabout := fun a _ => a,
          gen_quatrotateabout_jac_q1 := fun a _ => a, gen_quatrotateabout_jac_q2 := fun a _ => a,
          quatrotatevector := fun a _ => a, gen_quatrotatevector := fun a _ => a,
          gen_quatrotatevector_jac_q := fun a _ => a, gen_quatrotatevector_jac_pt := fun a _ => a }
        : Kernels ℚ)
      0 (fun _ => 0)).jacobians 1).jacobian_start_idx
        + ((quatrotatevector_def
      ({ sizeofFLT := 8, M_PI := 3, RAND_MAX := 100, rand := fun k => (k : ℚ),
          quat_of_euler := fun a b c _ => a + b + c, copy3d := fun b _ _ => b,
          survive_apply_ang_velocity := fun b _ _ _ => b, gen_imu_rot_f := fun b _ _ => b }
        : Extern ℚ)
      ({ quatrotateabout := fun a _ => a, gen_quatrotateabout := fun a _ => a,
          gen_quatrotateabout_jac_q1 := fun a _ => a, gen_quatrotateabout_jac_q2 := fun a _ => a,
          quatrotatevector := fun a _ => a, gen_quatrotatevector := fun a _ => a,
          gen_quatrotatevector_jac_q := fun a _ => a, gen_quatrotatevector_jac_pt := fun a _ => a }
        : Kernels ℚ)
      0 (fun _ => 0)).jacobians 1).jacobian_length ≤ 7) := by
  obtain ⟨_, h2, _, _, _, _, h7, _⟩ := registered_jacobians_in_bounds
      ({ sizeofFLT := 8, M_PI := 3, RAND_MAX := 100, rand := fun k => (k : ℚ),
          quat_of_euler := fun a b c _ => a + b + c, copy3d := fun b _ _ => b,
          survive_apply_ang_velocity := fun b _ _ _ => b, gen_imu_rot_f := fun b _ _ => b }
        : Extern ℚ)
      ({ quatrotateabout := fun a _ => a, gen_quatrotateabout := fun a _ => a,
          gen_quatrotateabout_jac_q1 := fun a _ => a, gen_quatrotateabout_jac_q2 := fun a _ => a,
          quatrotatevector := fun a _ => a, gen_quatrotatevector := fun a _ => a,
          gen_quatrotatevector_jac_q := fun a _ => a, gen_quatrotatevector_jac_pt := fun a _ => a }
        : Kernels ℚ)
      0 (fun _ => 0) (fun v => v) 0 1 (by decide) (by decide)
  exact ⟨by decide, by decide, h2, h7⟩

end CheckGenerated
